import Mathlib

/-!
Verification of the backport-action core against its specification.

The TypeScript sources are shallowly embedded: JavaScript strings become
`List Char`, asynchronous platform/git calls become explicit oracle
parameters, thrown exceptions become `Except`, and the per-target
orchestration loop becomes a fold over explicit per-target outcomes.
-/

namespace BackportAction

/-- JavaScript strings are modelled as lists of characters. -/
abbrev Str := List Char

/-- The backtick character (written via its code point to keep the file
free of raw backticks outside strings). -/
def btick : Char := Char.ofNat 96

/-- ASCII whitespace as recognised by JavaScript `trim` / `parseInt`
(the exotic Unicode space classes are not modelled; no input in this
development contains them). -/
def isJsSpace (c : Char) : Bool :=
  c = ' ' || c = '\t' || c = '\n' || c = '\r' || c = '\x0b' || c = '\x0c'

/-- `isPre p s` models JavaScript `s.startsWith(p)`. -/
def isPre : Str → Str → Bool
  | [], _ => true
  | _ :: _, [] => false
  | a :: ps, b :: cs => a = b && isPre ps cs

/-- `findIdxFrom c start l` models `l.indexOf(c, start)` (`none` for `-1`). -/
def findIdxFrom (c : Char) (start : Nat) (l : Str) : Option Nat :=
  ((l.drop start).findIdx? (· = c)).map (· + start)

/-- `lastIdxOfC c l` models `l.lastIndexOf(c)` (`none` for `-1`). -/
def lastIdxOfC (c : Char) (l : Str) : Option Nat :=
  (l.reverse.findIdx? (· = c)).map (fun i => l.length - 1 - i)

/-- `substrL a b l` models `l.substring(a, b)` (argument swap as in JS). -/
def substrL (a b : Nat) (l : Str) : Str :=
  (l.take (max a b)).drop (min a b)

/-- Models `l.substring(a)`. -/
def substrFrom (a : Nat) (l : Str) : Str := l.drop a

/-- Left part of JavaScript `trim`. -/
def trimLeftL (l : Str) : Str := l.dropWhile isJsSpace

/-- Right part of JavaScript `trim`. -/
def trimRightL (l : Str) : Str := (l.reverse.dropWhile isJsSpace).reverse

/-- Models JavaScript `l.trim()`. -/
def trimL (l : Str) : Str := trimRightL (trimLeftL l)

/-- Models JavaScript `body.split("\n")`. -/
def splitNl : Str → List Str
  | [] => [[]]
  | c :: cs =>
    match splitNl cs with
    | [] => [[c]]
    | h :: t => if c = '\n' then [] :: h :: t else (c :: h) :: t

/-- Joins lines with newlines (inverse direction of `splitNl`). -/
def joinNl : List Str → Str
  | [] => []
  | [x] => x
  | x :: y :: t => x ++ '\n' :: joinNl (y :: t)

/-- Models `array.join(sep)`. -/
def joinSep (sep : Str) : List Str → Str
  | [] => []
  | [x] => x
  | x :: y :: t => x ++ sep ++ joinSep sep (y :: t)

/-- Numeric value of a decimal digit character. -/
def digitVal (c : Char) : Nat := c.toNat - 48

/-- Fuel-driven core of the decimal rendering (structural recursion so
that closed instances evaluate inside the kernel). -/
def natToDigitsCore : Nat → Nat → Str
  | 0, _ => []
  | fuel + 1, n =>
    if n < 10 then [Char.ofNat (48 + n)]
    else natToDigitsCore fuel (n / 10) ++ [Char.ofNat (48 + n % 10)]

/-- Decimal rendering of a natural number, as in JS `Number.toString()`. -/
def natToDigits (n : Nat) : Str := natToDigitsCore (n + 1) n

/-- Value of a list of decimal digit characters. -/
def digitsToNat (l : Str) : Nat := l.foldl (fun a c => a * 10 + digitVal c) 0

/-- Longest digit run at the front of `l`, its value; `none` when there is
no leading digit.  Models `l.match(/^(\d+)/)` followed by `parseInt`. -/
def parseDigitsNat (l : Str) : Option Nat :=
  let d := l.takeWhile Char.isDigit
  if d.isEmpty then none else some (digitsToNat d)

/-- Decimal rendering of an integer, as in JS template interpolation. -/
def intToDigits (i : Int) : Str :=
  if i < 0 then '-' :: natToDigits i.natAbs else natToDigits i.natAbs

/-- Models JavaScript `parseInt(l, 10)`: skip leading whitespace, optional
sign, then the longest digit run; `none` for `NaN`. -/
def parseIntJs (l : Str) : Option Int :=
  match l.dropWhile isJsSpace with
  | [] => none
  | c :: r =>
    if c = '-' then (parseDigitsNat r).map (fun n => -(n : Int))
    else if c = '+' then (parseDigitsNat r).map (fun n => (n : Int))
    else (parseDigitsNat (c :: r)).map (fun n => (n : Int))

/-- Models `[...new Set(l)]`: keeps the first occurrence of each element,
in insertion order. -/
def dedupFirst {α : Type} [DecidableEq α] : List α → List α
  | [] => []
  | x :: xs => x :: dedupFirst (xs.filter (fun y => y ≠ x))
termination_by l => l.length
decreasing_by
  exact Nat.lt_succ_of_le (List.length_filter_le _ xs)

/-- Models JavaScript `l.replace(pat, rep)` with a string pattern:
only the first occurrence is replaced (`$`-escapes in `rep` are not
modelled; all replacement values used below are `$`-free). -/
def replaceFirst (pat rep : Str) : Str → Str
  | [] => if isPre pat [] then rep else []
  | c :: r =>
    if isPre pat (c :: r) then rep ++ (c :: r).drop pat.length
    else c :: replaceFirst pat rep r

/-! ## Merge strategy detection (src/github.ts, `Github.mergeStrategy`) -/

/-- The four merge strategies of src/github.ts. -/
inductive MergeStrategy : Type
  | SQUASHED
  | REBASED
  | MERGECOMMIT
  | UNKNOWN
deriving DecidableEq, Repr

/-- Embeds `Github.mergeStrategy`.  `pullCommits` is `pull.commits`,
`parents` the result of `getParents(merge_commit_sha)`, and `assoc sha`
the result of `isShaAssociatedWithPullRequest(sha, pull)`.  The
`.error` case models the TypeError thrown by `parents[0].sha` when the
merge commit has no parents. -/
def mergeStrategy (pullCommits : Nat) (merge_commit_sha : Option Str)
    (parents : List Str) (assoc : Str → Bool) : Except Unit MergeStrategy :=
  match merge_commit_sha with
  | none => .ok .UNKNOWN
  | some sha =>
    if parents.length > 1 then .ok .MERGECOMMIT
    else if pullCommits = 1 then .ok .SQUASHED
    else
      match parents with
      | [] => .error ()
      | first_parent_sha :: _ =>
        let first_parent_belongs_to_pr := assoc first_parent_sha
        let merge_belongs_to_pr := assoc sha
        if first_parent_belongs_to_pr && merge_belongs_to_pr then .ok .REBASED
        else if !first_parent_belongs_to_pr && merge_belongs_to_pr then .ok .SQUASHED
        else .ok .UNKNOWN

/-! ## Target branch resolution (src/backport.ts, `findTargetBranches`)

A compiled label pattern is modelled by its `exec` function: for a label
it yields `none` (no match) or the JS match array — element 0 is the
matched substring, element `i+1` the `i`-th capture group (`none` inside
when the group did not participate).  `match.length === 2` corresponds to
the array having exactly two elements. -/

/-- A JS `RegExp.exec` result: the match array, if any. -/
abbrev PatternExec := Str → Option (List (Option Str))

/-- The map-filter-map chain of `findTargetBranchesFromLabels`: keep
labels whose match array has length exactly 2 and contribute the capture
at index 1 (which is the JS value `undefined`, i.e. `none`, when the
group did not participate). -/
def capturesOfLabels (exec : PatternExec) (labels : List Str) :
    List (Option Str) :=
  match labels with
  | [] => []
  | label :: rest =>
    match exec label with
    | none => capturesOfLabels exec rest
    | some m =>
      if m.length = 2 then m.getD 1 none :: capturesOfLabels exec rest
      else capturesOfLabels exec rest

/-- Embeds `findTargetBranchesFromLabels`: nothing when the pattern input
is undefined, otherwise the captures of the matching labels. -/
def findTargetBranchesFromLabels (pattern : Option PatternExec) (labels : List Str) :
    List (Option Str) :=
  match pattern with
  | none => []
  | some exec => capturesOfLabels exec labels

/-- Embeds the handling of the `target_branches` input: split on single
spaces, trim each token, drop blank tokens (`?? []` for a missing input). -/
def configuredTargetBranches (target_branches : Option Str) : List Str :=
  match target_branches with
  | none => []
  | some s => ((splitSpace s).map trimL).filter (fun t => t ≠ [])
where
  /-- JS `s.split(" ")` (single-character separator). -/
  splitSpace : Str → List Str
    | [] => [[]]
    | c :: cs =>
      match splitSpace cs with
      | [] => [[c]]
      | h :: t => if c = ' ' then [] :: h :: t else (c :: h) :: t

/-- Embeds `findTargetBranches`: deduplicated union of label-derived and
configured branches (labels first, insertion order), with the pull
request's head ref removed.  Elements are `Option Str` because a label
whose single capture group did not participate contributes the JS value
`undefined`. -/
def findTargetBranches (pattern : Option PatternExec) (target_branches : Option Str)
    (labels : List Str) (headref : Str) : List (Option Str) :=
  let targetBranchesFromLabels := findTargetBranchesFromLabels pattern labels
  let configured := (configuredTargetBranches target_branches).map some
  (dedupFirst (targetBranchesFromLabels ++ configured)).filter
    (fun t => t ≠ some headref)

/-! ## Placeholder replacement (src/utils.ts, `replacePlaceholders`) -/

/-- The fields of the main pull request used by `replacePlaceholders`. -/
structure MainPr : Type where
  body : Option Str
  login : Str
  number : Nat
  title : Str

/-- Embeds `replacePlaceholders`.  `getRefs` stands for
`getMentionedIssueRefs` (a regex scan over the body, abstracted as a
parameter); its results are joined with single spaces as in the source. -/
def replacePlaceholders (getRefs : Option Str → List Str)
    (template : Str) (main : MainPr) (target : Str) : Str :=
  let issues := getRefs main.body
  replaceFirst ("${issue_refs}".toList) (joinSep [' '] issues)
    (replaceFirst ("${target_branch}".toList) target
      (replaceFirst ("${pull_description}".toList) (main.body.getD [])
        (replaceFirst ("${pull_title}".toList) main.title
          (replaceFirst ("${pull_number}".toList) (natToDigits main.number)
            (replaceFirst ("${pull_author}".toList) main.login template)))))

/-! ## Cherry-pick state machine (spec §4.3; `Git.cherryPick`) -/

/-- The two conflict policies of the cherry-pick state machine. -/
inductive ConflictResolution : Type
  | fail
  | draft_commit_conflicts
deriving DecidableEq, Repr

/-- Outcome of attempting to cherry-pick one sha, as the git tool would
report it: applied cleanly, conflict (exit code 1), or some other
failure exit code. -/
inductive PickOutcome : Type
  | applied
  | conflict
  | failedOther (exitCode : Nat)
deriving DecidableEq, Repr

/-- Oracle for the git working directory: how each sha's cherry-pick
exits, and whether committing a conflicted working tree succeeds. -/
structure GitEnv : Type where
  pick : Str → PickOutcome
  commitOfConflictOk : Bool

/-- The git invocations the cherry-pick state machine can issue. -/
inductive GitEvent : Type
  | pickAttempt (sha : Str)
  | sentinelCommit
  | abortPick
deriving DecidableEq, Repr

/-- A commit present on the branch after cherry-picking: either a
cherry-picked sha or the sentinel commit of a conflicted working tree. -/
inductive CommitRec : Type
  | cherry (sha : Str)
  | conflictDraft
deriving DecidableEq, Repr

/-- Events issued, commits on the branch, and the returned value
(`.ok none` = Clean, `.ok (some shas)` = PartialWithConflict,
`.error msg` = thrown Error). -/
structure CherryResult : Type where
  events : List GitEvent
  committed : List CommitRec
  result : Except Str (Option (List Str))
deriving Repr

/-- The command string in cherry-pick failure messages. -/
def cherryCmdStr (shas : List Str) : Str :=
  "git cherry-pick -x ".toList ++ joinSep [' '] shas

/-- The message of the Error thrown when a cherry-pick fails:
it quotes the exact failing command. -/
def cherryFailMsg (shas : List Str) (exitCode : Nat) : Str :=
  '\x27' :: cherryCmdStr shas ++ '\x27' ::
    " failed with exit code ".toList ++ natToDigits exitCode

/-- Exit code of a batch `git cherry-pick -x sha1 .. shan`: 0 when every
sha applies, otherwise the exit code at the first sha that does not. -/
def batchPickExit (env : GitEnv) : List Str → Nat
  | [] => 0
  | sha :: rest =>
    match env.pick sha with
    | .applied => batchPickExit env rest
    | .conflict => 1
    | .failedOther c => c

/-- The incremental loop of the `draft_commit_conflicts` policy:
cherry-pick one sha at a time; on a conflict, commit the conflicted
working tree as a sentinel commit and stop, returning the shas not yet
applied (starting with the conflicting one); if that commit fails, abort
the in-progress cherry-pick and raise; on any other failure, abort and
raise. -/
def cherryPickDraft (env : GitEnv) : List Str → List CommitRec → CherryResult
  | [], committed => ⟨[], committed, .ok none⟩
  | sha :: rest, committed =>
    match env.pick sha with
    | .applied =>
      let r := cherryPickDraft env rest (committed ++ [.cherry sha])
      ⟨.pickAttempt sha :: r.events, r.committed, r.result⟩
    | .conflict =>
      if env.commitOfConflictOk then
        ⟨[.pickAttempt sha, .sentinelCommit], committed ++ [.conflictDraft],
          .ok (some (sha :: rest))⟩
      else
        ⟨[.pickAttempt sha, .abortPick], committed, .error (cherryFailMsg [sha] 1)⟩
    | .failedOther c =>
      ⟨[.pickAttempt sha, .abortPick], committed, .error (cherryFailMsg [sha] c)⟩

/-- Modelled from the spec: the current `Git.cherryPick` (the variant
taking a conflict-resolution policy) is not present in src/git.ts — only
its caller (src/backport.ts) and its tests (src/test/git.test.ts) are —
so the state machine is taken from spec §4.3.  Under `fail` the whole
batch is one invocation; any failure aborts it (the abort restores the
branch, so nothing stays committed) and raises an Error quoting the
command.  Under `draft_commit_conflicts` see `cherryPickDraft`. -/
def cherryPick (commitShas : List Str) (conflictResolution : ConflictResolution)
    (env : GitEnv) : CherryResult :=
  match conflictResolution with
  | .fail =>
    let c := batchPickExit env commitShas
    if c = 0 then
      ⟨commitShas.map .pickAttempt, commitShas.map .cherry, .ok none⟩
    else
      ⟨(commitShas.map .pickAttempt) ++ [.abortPick], [], .error (cherryFailMsg commitShas c)⟩
  | .draft_commit_conflicts => cherryPickDraft env commitShas []

/-! ## Dashboard store (src/dashboard.ts) -/

/-- A backport link inside a dashboard entry. -/
structure BackportEntry : Type where
  number : Nat
  branch : Str
deriving DecidableEq, Repr

/-- One dashboard entry: the original pull request and its tracked
backports.  The header number is an `Int` because `parseInt` can yield a
negative value for adversarial bodies. -/
structure DashboardEntry : Type where
  originalPrNumber : Int
  originalPrTitle : Str
  backports : List BackportEntry
deriving DecidableEq, Repr

/-- The fixed dashboard header (`Dashboard.HEADER` after `dedent`):
line continuations are joined, common indentation stripped, and leading
and trailing whitespace trimmed. -/
def dashHeader : Str :=
  ("<!-- VERSION: 1 -->\n" ++
   "This issue lists pull requests that have been backported by " ++
   "[backport-action](https://github.com/korthout/backport-action). " ++
   "The action automatically adds newly created backports. " ++
   "Pull requests where all backports are merged or closed are " ++
   "automatically removed from this list on subsequent runs. " ++
   "This allows maintainers to keep track of backports that still need " ++
   "attention.\n" ++
   "\n" ++
   "> [!NOTE]\n" ++
   "> Please do not edit this issue manually unless you need to resolve " ++
   "any issues. The action uses the issue as a data store. Additionally, " ++
   "please note that this dashboard is an experimental feature. If you " ++
   "notice any mistakes or problems, please report them in " ++
   "[the action\x27s repo](https://github.com/korthout/backport-action/issues).\n" ++
   "\n" ++
   "---").toList

/-- `title.replace(/\n/g, " ")`. -/
def sanitizeTitle (t : Str) : Str := t.map (fun c => if c = '\n' then ' ' else c)

/-- `branch.replace(/(\\)?` + backtick + `/g, ...)`: escape every backtick
not already preceded by a backslash; already-escaped backticks are kept. -/
def escapeBranch : Str → Str
  | [] => []
  | [c] => if c = btick then ['\\', btick] else [c]
  | c1 :: c2 :: rest =>
    if c1 = '\\' ∧ c2 = btick then c1 :: c2 :: escapeBranch rest
    else if c1 = btick then '\\' :: btick :: escapeBranch (c2 :: rest)
    else c1 :: escapeBranch (c2 :: rest)

/-- The `## #<number> <title>` line of an entry. -/
def renderEntryHeaderLine (e : DashboardEntry) : Str :=
  "## #".toList ++ intToDigits e.originalPrNumber ++ ' ' :: sanitizeTitle e.originalPrTitle

/-- The link of one backport: `#n`, or `owner/repo#n` in downstream mode. -/
def renderLink (downstream : Option (Str × Str)) (n : Nat) : Str :=
  match downstream with
  | some (owner, repo) => owner ++ '/' :: repo ++ '#' :: natToDigits n
  | none => '#' :: natToDigits n

/-- One item line of an entry (without the trailing newline). -/
def renderItemLine (downstream : Option (Str × Str)) (b : BackportEntry) : Str :=
  "- ".toList ++ btick :: escapeBranch b.branch ++ btick :: ':' :: ' ' :: renderLink downstream b.number

/-- The text a nonempty entry list appends after the header: per entry a
newline, its header line, a newline, and its item lines each ending in a
newline. -/
def renderTail (downstream : Option (Str × Str)) (entries : List DashboardEntry) : Str :=
  (entries.map (fun e =>
    '\n' :: renderEntryHeaderLine e ++ '\n' ::
      (e.backports.map (fun b => renderItemLine downstream b ++ ['\n'])).flatten)).flatten

/-- Embeds `Dashboard.renderDashboard`. -/
def renderDashboard (entries : List DashboardEntry) (downstream : Option (Str × Str)) : Str :=
  if entries = [] then dashHeader ++ "\nNo active backports.\n".toList
  else dashHeader ++ renderTail downstream entries

/-- Leading part of the version marker regex. -/
def markerPre : Str := "<!-- VERSION: ".toList

/-- Trailing part of the version marker regex. -/
def markerSuf : Str := " -->".toList

/-- Tries to match `<!-- VERSION: (\d+) -->` at the start of `l`. -/
def matchVersionAt (l : Str) : Option Nat :=
  if isPre markerPre l then
    let r := l.drop markerPre.length
    let d := r.takeWhile Char.isDigit
    if d.isEmpty then none
    else if isPre markerSuf (r.drop d.length) then some (digitsToNat d) else none
  else none

/-- First match of the version marker regex anywhere in the line. -/
def findVersionMarker : Str → Option Nat
  | [] => none
  | c :: r =>
    match matchVersionAt (c :: r) with
    | some v => some v
    | none => findVersionMarker r

/-- Parses a trimmed `## #<number> <title>` line. -/
def parseHeaderLine (t : Str) : Option (Int × Str) :=
  match findIdxFrom ' ' 4 t with
  | none => none
  | some si =>
    match parseIntJs (substrL 4 si t) with
    | none => none
    | some n => some (n, trimL (substrFrom (si + 1) t))

/-- Parses a trimmed item line (already known to start with a dash). -/
def parseItemLine (t : Str) : Option BackportEntry :=
  match findIdxFrom btick 0 t with
  | none => none
  | some fb =>
    if trimL (substrL 1 fb t) ≠ [] then none
    else
      match findIdxFrom ':' (fb + 1) t with
      | none => none
      | some ci =>
        let preColon := substrL (fb + 1) ci t
        match lastIdxOfC btick preColon with
        | none => none
        | some lb =>
          if trimL (substrFrom (lb + 1) preColon) ≠ [] then none
          else
            let branch := substrL 0 lb preColon
            if branch = [] then none
            else
              let rest := trimL (substrFrom (ci + 1) t)
              match lastIdxOfC '#' rest with
              | none => none
              | some hi =>
                match parseDigitsNat (substrFrom (hi + 1) rest) with
                | none => none
                | some n => some ⟨n, branch⟩

/-- One step of the line loop of `parseDashboard`.  The state is the
finished entries plus the entry currently being filled (the JS code
pushes `currentEntry` into the array immediately and mutates it; here
the current entry is held out and flushed on the next header / at the
end, which yields the same list). -/
def parseStep (st : List DashboardEntry × Option DashboardEntry) (line : Str) :
    List DashboardEntry × Option DashboardEntry :=
  let t := trimL line
  if isPre ("## #".toList) t then
    match parseHeaderLine t with
    | none => st
    | some nt => (st.1 ++ st.2.toList, some ⟨nt.1, nt.2, []⟩)
  else if isPre ("-".toList) t ∧ st.2.isSome then
    match parseItemLine t with
    | none => st
    | some b =>
      match st.2 with
      | none => st
      | some cur => (st.1, some ⟨cur.originalPrNumber, cur.originalPrTitle, cur.backports ++ [b]⟩)
  else st

/-- Embeds `Dashboard.parseDashboard`: `none` models the `undefined`
returned for an unsupported version (`lines.length === 0` is dead code
since `split` never yields an empty array).  The version is 0 when the
first line has no marker; any version below 1 is unsupported. -/
def parseDashboard (body : Str) : Option (List DashboardEntry) :=
  let lines := splitNl body
  let version := (findVersionMarker (lines.headD [])).getD 0
  if version < 1 then none
  else
    let st := lines.foldl parseStep ([], none)
    some (st.1 ++ st.2.toList)

/-- The stored tracking issue, as found by `findDashboardIssue`. -/
structure Issue : Type where
  number : Nat
  body : Option Str

/-- The write `createOrUpdateDashboard` performs, if any. -/
inductive DashEffect : Type
  | noWrite
  | updateIssue (number : Nat) (body : Str)
  | createIssue (body : Str)
deriving DecidableEq, Repr

/-- Drops closed backports from each entry and removes entries with no
active backport left (the JS reverse-index splice loop preserves the
order of the remaining entries, so it is a map-then-filter). -/
def filterActive (prOpen : Nat → Bool) (entries : List DashboardEntry) :
    List DashboardEntry :=
  (entries.map (fun e =>
    DashboardEntry.mk e.originalPrNumber e.originalPrTitle
      (e.backports.filter (fun b => prOpen b.number)))).filter
    (fun e => e.backports ≠ [])

/-- Appends the newly created backports (number, base branch), skipping
numbers already tracked. -/
def addBackports (cur : List BackportEntry) (newPRs : List (Nat × Str)) :
    List BackportEntry :=
  newPRs.foldl
    (fun acc p => if acc.any (fun b => b.number = p.1) then acc else acc ++ [⟨p.1, p.2⟩])
    cur

/-- Applies `f` to the first element satisfying `p`. -/
def updateFirst {α : Type} (p : α → Bool) (f : α → α) : List α → List α
  | [] => []
  | x :: xs => if p x then f x :: xs else x :: updateFirst p f xs

/-- Embeds `Dashboard.createOrUpdateDashboard`.  `issue` is the result of
`findDashboardIssue`, `prOpen n` whether pull request `n` is reported
open by the platform, `backportPRs` the `(number, base.ref)` pairs of the
newly created backports. -/
def createOrUpdateDashboard (issue : Option Issue) (prOpen : Nat → Bool)
    (originalPrNumber : Int) (originalPrTitle : Str)
    (backportPRs : List (Nat × Str)) (downstream : Option (Str × Str)) : DashEffect :=
  let body := match issue with
    | some i => i.body.getD []
    | none => dashHeader
  match parseDashboard body with
  | none => .noWrite
  | some entries =>
    let active := filterActive prOpen entries
    let upserted :=
      if active.any (fun e => e.originalPrNumber = originalPrNumber) then
        updateFirst (fun e => e.originalPrNumber = originalPrNumber)
          (fun e => ⟨e.originalPrNumber, e.originalPrTitle,
            addBackports e.backports backportPRs⟩) active
      else active ++ [⟨originalPrNumber, originalPrTitle, addBackports [] backportPRs⟩]
    let newBody := renderDashboard upserted downstream
    match issue with
    | some i => if i.body = some newBody then .noWrite else .updateIssue i.number newBody
    | none => .createIssue newBody

/-! ## Per-target orchestration (src/backport.ts, `Backport.run`) -/

/-- Result of a `git fetch` as seen by the orchestrator. -/
inductive FetchOutcome : Type
  | ok
  | refNotFound
  | genericError
deriving DecidableEq, Repr

/-- Result of `git.cherryPick` as seen by the orchestrator: a returned
value (the uncommitted shas, or `none` for a clean pick) or a thrown
error. -/
inductive CherryOutcome : Type
  | done (uncommitted : Option (List Str))
  | thrown
deriving DecidableEq, Repr

/-- Result of `github.createPR`: created with a number, rejected with a
`RequestError` (HTTP status plus the `errors[].message` list of the
response), or a thrown non-`RequestError` `Error`. -/
inductive CreatePROutcome : Type
  | created (number : Nat)
  | reqError (status : Nat) (msgs : List Str)
  | thrownError
deriving DecidableEq, Repr

/-- Everything the environment decides for one target branch. -/
structure TargetOracle : Type where
  fetchTarget : FetchOutcome
  checkoutThrows : Bool
  cherry : CherryOutcome
  pushExitCode : Nat
  fetchBranch : FetchOutcome
  createPR : CreatePROutcome
  /-- a non-`RequestError` `Error` thrown by one of the best-effort
  metadata steps (milestone / assignees / reviewers / labels), which the
  per-target catch turns into a failure record. -/
  metadataThrows : Bool

/-- The comments the per-target loop can post. -/
inductive MsgTag : Type
  | fetchTargetFailed
  | checkoutFailed
  | cherryPickFailed
  | pushFailed
  | createPRFailed
  | success
  | successWithConflicts
  | resolveConflicts
  | unexpected
deriving DecidableEq, Repr

/-- Observable outcome of processing one target: the entry recorded in
`successByTarget` (if any), the number appended to
`createdPullRequestNumbers` (if any), and the comments posted to the
original and to the new pull request. -/
structure TargetRecord : Type where
  recorded : Option Bool
  createdNumber : Option Nat
  originMsgs : List MsgTag
  newPrMsgs : List MsgTag
deriving DecidableEq, Repr

/-- The prefix the 422 response message is tested against. -/
def prExistsMsg : Str := "A pull request already exists for ".toList

/-- The condition of the idempotent-skip branch: status 422 and some
error message starting with `prExistsMsg`. -/
def isAlreadyExistsError (status : Nat) (msgs : List Str) : Bool :=
  status = 422 && msgs.any (fun m => isPre prExistsMsg m)

/-- Embeds the body of the per-target loop of `Backport.run` (lines
262–552).  A `.error` models an exception escaping the loop body, which
aborts the whole run (only a non-`GitRefNotFoundError` failure of the
target fetch does this, since that `try` rethrows).  Everything else is
caught per target. -/
def processTarget (o : TargetOracle) : Except Unit TargetRecord :=
  match o.fetchTarget with
  | .refNotFound => .ok ⟨some false, none, [.fetchTargetFailed], []⟩
  | .genericError => .error ()
  | .ok =>
    if o.checkoutThrows then .ok ⟨some false, none, [.checkoutFailed], []⟩
    else
      match o.cherry with
      | .thrown => .ok ⟨some false, none, [.cherryPickFailed], []⟩
      | .done uncommitted =>
        if o.pushExitCode ≠ 0 ∧ o.fetchBranch ≠ .ok then
          .ok ⟨some false, none, [.pushFailed], []⟩
        else
          match o.createPR with
          | .reqError status msgs =>
            if isAlreadyExistsError status msgs then .ok ⟨none, none, [], []⟩
            else .ok ⟨some false, none, [.createPRFailed], []⟩
          | .thrownError => .ok ⟨some false, none, [.unexpected], []⟩
          | .created n =>
            if o.metadataThrows then .ok ⟨some false, none, [.unexpected], []⟩
            else
              match uncommitted with
              | some _ => .ok ⟨some true, some n, [.successWithConflicts], [.resolveConflicts]⟩
              | none => .ok ⟨some true, some n, [.success], []⟩

/-- `Map.set` on an insertion-ordered association list. -/
def mapSet (m : List (Str × Bool)) (k : Str) (v : Bool) : List (Str × Bool) :=
  if m.any (fun p => p.1 = k) then
    updateFirst (fun p => p.1 = k) (fun p => (p.1, v)) m
  else m ++ [(k, v)]

/-- Runs the target loop: threads `successByTarget` and
`createdPullRequestNumbers` through `processTarget`; a `.error` aborts
the run (the run-level catch then never reaches `createOutput`). -/
def runTargets (targets : List Str) (oracle : Str → TargetOracle) :
    Except Unit (List (Str × Bool) × List Nat) :=
  targets.foldl
    (fun acc target =>
      match acc with
      | .error e => .error e
      | .ok (m, created) =>
        match processTarget (oracle target) with
        | .error e => .error e
        | .ok r =>
          (.ok
            ((match r.recorded with
              | none => m
              | some v => mapSet m target v),
             created ++ r.createdNumber.toList)))
    (.ok ([], []))

/-- The `was_successful` output of `createOutput`:
`!anyTargetFailed` where `anyTargetFailed` is whether the values of
`successByTarget` include `false`. -/
def wasSuccessfulOutput (successByTarget : List (Str × Bool)) : Bool :=
  !((successByTarget.map Prod.snd).contains false)

/-- The `created_pull_numbers` output: the numbers joined by spaces. -/
def createdPullNumbersOutput (createdPullRequestNumbers : List Nat) : Str :=
  joinSep [' '] (createdPullRequestNumbers.map natToDigits)

/-! ## Auxiliary definitions used by the statements -/

/-- The placeholders recognised by `replacePlaceholders`, in replacement
order. -/
def phList : List Str :=
  ["${pull_author}".toList, "${pull_number}".toList, "${pull_title}".toList,
   "${pull_description}".toList, "${target_branch}".toList, "${issue_refs}".toList]

/-- The value substituted for each placeholder. -/
def phValue (getRefs : Option Str → List Str) (main : MainPr) (target : Str)
    (p : Str) : Str :=
  if p = "${pull_author}".toList then main.login
  else if p = "${pull_number}".toList then natToDigits main.number
  else if p = "${pull_title}".toList then main.title
  else if p = "${pull_description}".toList then main.body.getD []
  else if p = "${target_branch}".toList then target
  else if p = "${issue_refs}".toList then joinSep [' '] (getRefs main.body)
  else p

/-- A backport link that survives the render→parse round trip: nonempty
branch, no colon or newline, and stable under backtick escaping. -/
def GoodBackport (b : BackportEntry) : Prop :=
  b.branch ≠ [] ∧ ':' ∉ b.branch ∧ '\n' ∉ b.branch ∧ escapeBranch b.branch = b.branch

/-- An entry that survives the render→parse round trip: nonempty
trim-stable newline-free title and good backports. -/
def GoodEntry (e : DashboardEntry) : Prop :=
  e.originalPrTitle ≠ [] ∧ '\n' ∉ e.originalPrTitle ∧
    trimL e.originalPrTitle = e.originalPrTitle ∧
    ∀ b ∈ e.backports, GoodBackport b

/-- The lines a rendered nonempty entry list contributes after the last
header line: per entry its header line and item lines, with the blank
line the next entry's leading newline creates (the last one from the
trailing newline of the body). -/
def dashTailLines : List DashboardEntry → List Str
  | [] => []
  | e :: rest =>
    renderEntryHeaderLine e ::
      (e.backports.map (renderItemLine none) ++ ([] :: dashTailLines rest))

/-- A per-target run that reaches PR creation and is rejected with the
already-exists 422 error. -/
def alreadyExistsOracle (o : TargetOracle) : Prop :=
  o.fetchTarget = .ok ∧ o.checkoutThrows = false ∧ (∃ u, o.cherry = .done u) ∧
    (o.pushExitCode = 0 ∨ o.fetchBranch = .ok) ∧
    ∃ msgs, o.createPR = .reqError 422 msgs ∧ ∃ m ∈ msgs, isPre prExistsMsg m = true

/-- A pattern whose regex is not anchored: models
`/port ([^ ]+)/.exec("backport foo")`, which matches the proper substring
`"port foo"` and captures `"foo"`. -/
def unanchoredExec : PatternExec := fun lbl =>
  if lbl = "backport foo".toList then some [some "port foo".toList, some "foo".toList]
  else none

/-- An entry list whose branch name contains a bare backtick. -/
def entriesBt : List DashboardEntry :=
  [⟨123, "T".toList, [⟨124, ['a', btick, 'b']⟩]⟩]

instance (b : BackportEntry) : Decidable (GoodBackport b) := by
  unfold GoodBackport
  exact inferInstance

instance (e : DashboardEntry) : Decidable (GoodEntry e) := by
  unfold GoodEntry
  exact inferInstance

/-- Line 0 of the rendered dashboard header. -/
def hdrL0 : Str := "<!-- VERSION: 1 -->".toList

/-- Line 1 of the rendered dashboard header. -/
def hdrL1 : Str :=
  ("This issue lists pull requests that have been backported by " ++
   "[backport-action](https://github.com/korthout/backport-action). " ++
   "The action automatically adds newly created backports. " ++
   "Pull requests where all backports are merged or closed are " ++
   "automatically removed from this list on subsequent runs. " ++
   "This allows maintainers to keep track of backports that still need " ++
   "attention.").toList

/-- Line 3 of the rendered dashboard header (line 2 is blank). -/
def hdrL3 : Str := "> [!NOTE]".toList

/-- Line 4 of the rendered dashboard header. -/
def hdrL4 : Str :=
  ("> Please do not edit this issue manually unless you need to resolve " ++
   "any issues. The action uses the issue as a data store. Additionally, " ++
   "please note that this dashboard is an experimental feature. If you " ++
   "notice any mistakes or problems, please report them in " ++
   "[the action\x27s repo](https://github.com/korthout/backport-action/issues).").toList

/-- Line 6 of the rendered dashboard header (line 5 is blank). -/
def hdrL6 : Str := "---".toList

/-! ## Basic lemmas -/

theorem toNat_charOfNat {n : Nat} (h : n < 55296) : (Char.ofNat n).toNat = n := by
  rw [Char.ofNat, dif_pos (Or.inl h)]
  simp [Char.ofNatAux, Char.toNat, UInt32.ofNat', UInt32.toNat]

theorem charIsDigit_iff (c : Char) :
    c.isDigit = true ↔ (48 ≤ c.toNat ∧ c.toNat ≤ 57) := by
  simp only [Char.isDigit, Bool.and_eq_true, decide_eq_true_eq, GE.ge, UInt32.le_def,
    BitVec.le_def]
  exact ⟨fun h => ⟨h.1, h.2⟩, fun h => ⟨h.1, h.2⟩⟩

theorem natToDigitsCore_extra (n : Nat) :
    ∀ f1 f2 : Nat, n < f1 → n < f2 →
      natToDigitsCore f1 n = natToDigitsCore f2 n := by
  induction n using Nat.strong_induction_on with
  | _ n ih =>
    intro f1 f2 h1 h2
    cases f1 with
    | zero => omega
    | succ s1 =>
      cases f2 with
      | zero => omega
      | succ s2 =>
        simp only [natToDigitsCore]
        by_cases hn : n < 10
        · simp [hn]
        · rw [if_neg hn, if_neg hn]
          rw [ih (n / 10) (Nat.div_lt_self (by omega) (by omega)) s1 s2
            (by omega) (by omega)]

theorem natToDigits_eq (n : Nat) :
    natToDigits n =
      if n < 10 then [Char.ofNat (48 + n)]
      else natToDigits (n / 10) ++ [Char.ofNat (48 + n % 10)] := by
  rw [natToDigits, natToDigitsCore]
  by_cases hn : n < 10
  · simp [hn]
  · rw [if_neg hn, if_neg hn, natToDigits]
    rw [natToDigitsCore_extra (n / 10) n (n / 10 + 1)
      (by omega) (by omega)]

theorem natToDigits_toNat_mem {m : Nat} {c : Char} (h : c ∈ natToDigits m) :
    48 ≤ c.toNat ∧ c.toNat ≤ 57 := by
  induction m using Nat.strong_induction_on with
  | _ m ih =>
    rw [natToDigits_eq] at h
    by_cases hm : m < 10
    · simp only [if_pos hm, List.mem_singleton] at h
      subst h
      rw [toNat_charOfNat (by omega)]
      omega
    · simp only [if_neg hm, List.mem_append, List.mem_singleton] at h
      rcases h with h | h
      · exact ih (m / 10) (Nat.div_lt_self (by omega) (by omega)) h
      · subst h
        have hlt : m % 10 < 10 := Nat.mod_lt _ (by omega)
        rw [toNat_charOfNat (by omega)]
        omega

theorem natToDigits_ne_nil (m : Nat) : natToDigits m ≠ [] := by
  rw [natToDigits_eq]
  split <;> simp

theorem natToDigits_isDigit {m : Nat} {c : Char} (h : c ∈ natToDigits m) :
    c.isDigit = true :=
  (charIsDigit_iff c).mpr (natToDigits_toNat_mem h)

theorem digitsToNat_append (a : Str) (c : Char) :
    digitsToNat (a ++ [c]) = digitsToNat a * 10 + digitVal c := by
  simp [digitsToNat, List.foldl_append]

theorem digitsToNat_natToDigits (m : Nat) : digitsToNat (natToDigits m) = m := by
  induction m using Nat.strong_induction_on with
  | _ m ih =>
    rw [natToDigits_eq]
    by_cases hm : m < 10
    · simp only [if_pos hm]
      simp only [digitsToNat, List.foldl_cons, List.foldl_nil, digitVal]
      rw [toNat_charOfNat (by omega)]
      omega
    · simp only [if_neg hm, digitsToNat_append]
      rw [ih (m / 10) (Nat.div_lt_self (by omega) (by omega))]
      have hlt : m % 10 < 10 := Nat.mod_lt _ (by omega)
      simp only [digitVal]
      rw [toNat_charOfNat (by omega)]
      omega

theorem takeWhile_isDigit_natToDigits (m : Nat) :
    List.takeWhile Char.isDigit (natToDigits m) = natToDigits m :=
  List.takeWhile_eq_self_iff.mpr (fun _ hc => natToDigits_isDigit hc)

theorem parseDigitsNat_natToDigits (m : Nat) (rest : Str)
    (hrest : ∀ (h : rest ≠ []), (rest.head h).isDigit = false) :
    parseDigitsNat (natToDigits m ++ rest) = some m := by
  have htake : (natToDigits m ++ rest).takeWhile Char.isDigit = natToDigits m := by
    rw [List.takeWhile_append]
    rw [if_pos (by rw [takeWhile_isDigit_natToDigits])]
    cases rest with
    | nil => simp
    | cons r rs =>
      have hr : r.isDigit = false := by simpa using hrest (by simp)
      simp [List.takeWhile_cons, hr]
  simp only [parseDigitsNat, htake]
  rw [if_neg (by simpa using natToDigits_ne_nil m)]
  rw [digitsToNat_natToDigits]

theorem parseDigitsNat_natToDigits_nil (m : Nat) :
    parseDigitsNat (natToDigits m) = some m := by
  have := parseDigitsNat_natToDigits m [] (fun h => absurd rfl h)
  simpa using this

/-! ## C2: merge strategy detection -/

/-- C2: `mergeStrategy` returns Unknown when the merge commit sha is
absent; MergeCommit when the merge commit has more than one parent;
Squashed on a single parent when the pull request has exactly one
commit; and otherwise Rebased when both the first parent and the merge
commit are associated with the pull request, Squashed when only the
merge commit is, and Unknown for every other combination. -/
theorem mergeStrategy_spec :
    (∀ (c : Nat) (ps : List Str) (a : Str → Bool),
      mergeStrategy c none ps a = .ok .UNKNOWN) ∧
    (∀ (c : Nat) (sha : Str) (ps : List Str) (a : Str → Bool),
      ps.length > 1 → mergeStrategy c (some sha) ps a = .ok .MERGECOMMIT) ∧
    (∀ (sha p : Str) (a : Str → Bool),
      mergeStrategy 1 (some sha) [p] a = .ok .SQUASHED) ∧
    (∀ (c : Nat) (sha p : Str) (a : Str → Bool), c ≠ 1 →
      a p = true → a sha = true →
      mergeStrategy c (some sha) [p] a = .ok .REBASED) ∧
    (∀ (c : Nat) (sha p : Str) (a : Str → Bool), c ≠ 1 →
      a p = false → a sha = true →
      mergeStrategy c (some sha) [p] a = .ok .SQUASHED) ∧
    (∀ (c : Nat) (sha p : Str) (a : Str → Bool), c ≠ 1 →
      a sha = false →
      mergeStrategy c (some sha) [p] a = .ok .UNKNOWN) := by
  refine ⟨fun _ _ _ => rfl, ?_, ?_, ?_, ?_, ?_⟩
  · intro c sha ps a h
    simp [mergeStrategy, h]
  · intro sha p a
    simp [mergeStrategy]
  · intro c sha p a hc hp hsha
    simp [mergeStrategy, hc, hp, hsha]
  · intro c sha p a hc hp hsha
    simp [mergeStrategy, hc, hp, hsha]
  · intro c sha p a hc hsha
    cases hp : a p <;> simp [mergeStrategy, hc, hp, hsha]

/-- Witness for C2 at concrete inputs. -/
theorem mergeStrategy_spec_witness :
    (["p".toList, "q".toList].length > 1 ∧
      mergeStrategy 5 (some "m".toList) ["p".toList, "q".toList] (fun _ => false) =
        .ok .MERGECOMMIT) ∧
    ((5 : Nat) ≠ 1 ∧
      mergeStrategy 5 (some "m".toList) ["p".toList] (fun _ => true) = .ok .REBASED) :=
  ⟨⟨by decide, mergeStrategy_spec.2.1 5 _ _ _ (by decide)⟩,
   ⟨by decide, mergeStrategy_spec.2.2.2.1 5 _ _ _ (by decide) rfl rfl⟩⟩

/-! ## C1 / C6: the cherry-pick state machine -/

theorem batchPickExit_conflict (env : GitEnv) (post : List Str) (s : Str)
    (hs : env.pick s = .conflict) :
    ∀ pre : List Str, (∀ x ∈ pre, env.pick x = .applied) →
      batchPickExit env (pre ++ s :: post) = 1 := by
  intro pre
  induction pre with
  | nil => intro _; simp [batchPickExit, hs]
  | cons x xs ih =>
    intro h
    have hx : env.pick x = .applied := h x (by simp)
    simp only [List.cons_append, batchPickExit, hx]
    exact ih (fun y hy => h y (by simp [hy]))

theorem cherryPickDraft_conflict (env : GitEnv) (post : List Str) (s : Str)
    (hs : env.pick s = .conflict) :
    ∀ (pre : List Str) (committed : List CommitRec),
      (∀ x ∈ pre, env.pick x = .applied) →
      cherryPickDraft env (pre ++ s :: post) committed =
        if env.commitOfConflictOk then
          ⟨pre.map .pickAttempt ++ [.pickAttempt s, .sentinelCommit],
           committed ++ pre.map .cherry ++ [.conflictDraft],
           .ok (some (s :: post))⟩
        else
          ⟨pre.map .pickAttempt ++ [.pickAttempt s, .abortPick],
           committed ++ pre.map .cherry,
           .error (cherryFailMsg [s] 1)⟩ := by
  intro pre
  induction pre with
  | nil =>
    intro committed _
    cases hco : env.commitOfConflictOk <;>
      simp [cherryPickDraft, hs, hco]
  | cons x xs ih =>
    intro committed h
    have hx : env.pick x = .applied := h x (by simp)
    rw [List.cons_append]
    simp only [cherryPickDraft, hx]
    rw [ih (committed ++ [CommitRec.cherry x]) (fun y hy => h y (by simp [hy]))]
    cases hco : env.commitOfConflictOk <;> simp

/-- C1: under the `draft_commit_conflicts` policy, a conflict at the
commit in position k of n commits the conflicted working tree once as a
sentinel commit, attempts none of the remaining commits, and returns
exactly the shas from position k on (starting with the conflicting one);
only when committing the conflicted tree fails does it abort and raise. -/
theorem cherryPick_draft_commit_conflicts_spec (env : GitEnv) (pre post : List Str)
    (s : Str) (hpre : ∀ x ∈ pre, env.pick x = .applied)
    (hs : env.pick s = .conflict) :
    (env.commitOfConflictOk = true →
      cherryPick (pre ++ s :: post) .draft_commit_conflicts env =
        ⟨(pre ++ [s]).map .pickAttempt ++ [.sentinelCommit],
         pre.map .cherry ++ [.conflictDraft],
         .ok (some ((pre ++ s :: post).drop pre.length))⟩ ∧
      ((pre ++ [s]).map GitEvent.pickAttempt ++ [GitEvent.sentinelCommit]).count
          GitEvent.sentinelCommit = 1) ∧
    (env.commitOfConflictOk = false →
      cherryPick (pre ++ s :: post) .draft_commit_conflicts env =
        ⟨(pre ++ [s]).map .pickAttempt ++ [.abortPick],
         pre.map .cherry,
         .error (cherryFailMsg [s] 1)⟩) := by
  have hmain := cherryPickDraft_conflict env post s hs pre [] hpre
  have hdrop : (pre ++ s :: post).drop pre.length = s :: post := by
    simp
  constructor
  · intro hco
    rw [if_pos (by simp [hco])] at hmain
    constructor
    · simp only [cherryPick, hmain, hdrop]
      simp
    · rw [List.count_append]
      rw [List.count_eq_zero.mpr (by simp)]
      simp
  · intro hco
    rw [if_neg (by simp [hco])] at hmain
    simp only [cherryPick, hmain]
    simp

/-- Witness for C1 at a concrete conflict in position 2 of 3. -/
theorem cherryPick_draft_commit_conflicts_spec_witness :
    (∀ x ∈ ["a".toList], (GitEnv.mk
        (fun sha => if sha = "b".toList then .conflict else .applied) true).pick x =
        .applied) ∧
    (GitEnv.mk (fun sha => if sha = "b".toList then .conflict else .applied)
        true).pick "b".toList = .conflict ∧
    cherryPick ["a".toList, "b".toList, "c".toList] .draft_commit_conflicts
      (GitEnv.mk (fun sha => if sha = "b".toList then .conflict else .applied) true) =
      ⟨[.pickAttempt "a".toList, .pickAttempt "b".toList, .sentinelCommit],
       [.cherry "a".toList, .conflictDraft],
       .ok (some ["b".toList, "c".toList])⟩ := by
  refine ⟨by decide, by decide, ?_⟩
  have h := (cherryPick_draft_commit_conflicts_spec
    (GitEnv.mk (fun sha => if sha = "b".toList then .conflict else .applied) true)
    ["a".toList] ["c".toList] "b".toList (by decide) (by decide)).1 rfl
  simpa using h.1

/-- C6: under the `fail` policy a conflicting commit makes the whole
batch abort: nothing stays committed, an abort is issued, and the raised
error message quotes the exact failing cherry-pick command. -/
theorem cherryPick_fail_spec (env : GitEnv) (pre post : List Str) (s : Str)
    (hpre : ∀ x ∈ pre, env.pick x = .applied)
    (hs : env.pick s = .conflict) :
    cherryPick (pre ++ s :: post) .fail env =
      ⟨(pre ++ s :: post).map .pickAttempt ++ [.abortPick], [],
       .error (cherryFailMsg (pre ++ s :: post) 1)⟩ ∧
    cherryFailMsg (pre ++ s :: post) 1 =
      '\x27' :: cherryCmdStr (pre ++ s :: post) ++
        '\x27' :: " failed with exit code ".toList ++ natToDigits 1 := by
  constructor
  · have hb := batchPickExit_conflict env post s hs pre hpre
    simp [cherryPick, hb]
  · rfl

/-- Witness for C6 at a concrete conflict. -/
theorem cherryPick_fail_spec_witness :
    (∀ x ∈ ["a".toList], (GitEnv.mk
        (fun sha => if sha = "b".toList then .conflict else .applied) true).pick x =
        .applied) ∧
    cherryPick ["a".toList, "b".toList] .fail
      (GitEnv.mk (fun sha => if sha = "b".toList then .conflict else .applied) true) =
      ⟨[.pickAttempt "a".toList, .pickAttempt "b".toList, .abortPick], [],
       .error (cherryFailMsg ["a".toList, "b".toList] 1)⟩ := by
  refine ⟨by decide, ?_⟩
  have h := (cherryPick_fail_spec
    (GitEnv.mk (fun sha => if sha = "b".toList then .conflict else .applied) true)
    ["a".toList] [] "b".toList (by decide) (by decide)).1
  simpa using h

/-! ## C7 / C10: the per-target loop and run outputs -/

theorem processTarget_already_exists_aux (o : TargetOracle)
    (h : alreadyExistsOracle o) : processTarget o = .ok ⟨none, none, [], []⟩ := by
  obtain ⟨h1, h2, ⟨u, h3⟩, h4, msgs, h5, m, hm, hpre⟩ := h
  have hae : isAlreadyExistsError 422 msgs = true := by
    simp only [isAlreadyExistsError]
    rw [Bool.and_eq_true]
    refine ⟨by decide, ?_⟩
    rw [List.any_eq_true]
    exact ⟨m, hm, hpre⟩
  simp only [processTarget, h1, h2, h3, h5]
  rw [if_neg (by simp), if_neg (by rcases h4 with h4 | h4 <;> simp [h4]), if_pos hae]

/-- C7: a 422 "pull request already exists" rejection of PR creation is
an idempotent no-op for that target: nothing is recorded in the
success-by-target map, no number is collected, and no comment is posted. -/
theorem processTarget_already_exists_spec (o : TargetOracle) (msgs : List Str)
    (u : Option (List Str))
    (h1 : o.fetchTarget = .ok) (h2 : o.checkoutThrows = false)
    (h3 : o.cherry = .done u)
    (h4 : o.pushExitCode = 0 ∨ o.fetchBranch = .ok)
    (h5 : o.createPR = .reqError 422 msgs)
    (h6 : ∃ m ∈ msgs, isPre prExistsMsg m = true) :
    processTarget o = .ok ⟨none, none, [], []⟩ := by
  obtain ⟨m, hm, hp⟩ := h6
  exact processTarget_already_exists_aux o
    ⟨h1, h2, ⟨u, h3⟩, h4, msgs, h5, m, hm, hp⟩

/-- Witness for C7 at a concrete oracle. -/
theorem processTarget_already_exists_spec_witness :
    processTarget
      (TargetOracle.mk .ok false (.done none) 0 .ok
        (.reqError 422 ["A pull request already exists for x:y.".toList]) false) =
      .ok ⟨none, none, [], []⟩ :=
  processTarget_already_exists_spec _ _ none rfl rfl rfl (Or.inl rfl) rfl
    ⟨"A pull request already exists for x:y.".toList, by simp, by decide⟩

theorem runTargets_all_skipped (oracle : Str → TargetOracle) :
    ∀ targets : List Str, (∀ t ∈ targets, alreadyExistsOracle (oracle t)) →
      runTargets targets oracle = .ok ([], []) := by
  intro targets
  induction targets with
  | nil => intro _; rfl
  | cons t ts ih =>
    intro h
    have ht := processTarget_already_exists_aux (oracle t) (h t (by simp))
    have hrest := ih (fun y hy => h y (by simp [hy]))
    simp only [runTargets, List.foldl_cons, ht] at *
    simpa using hrest

/-- C10: `was_successful` is true exactly when no processed target was
recorded as failed; a target that hits the already-exists case records
nothing, so a run in which every target does reports `was_successful`
true with an empty `created_pull_numbers` output. -/
theorem createOutput_spec :
    (∀ m : List (Str × Bool), wasSuccessfulOutput m = true ↔ ∀ p ∈ m, p.2 = true) ∧
    (∀ o : TargetOracle, alreadyExistsOracle o →
      processTarget o = .ok ⟨none, none, [], []⟩) ∧
    (∀ (targets : List Str) (oracle : Str → TargetOracle),
      (∀ t ∈ targets, alreadyExistsOracle (oracle t)) →
      runTargets targets oracle = .ok ([], []) ∧
        wasSuccessfulOutput [] = true ∧ createdPullNumbersOutput [] = []) := by
  refine ⟨?_, processTarget_already_exists_aux, ?_⟩
  · intro m
    simp only [wasSuccessfulOutput, Bool.not_eq_true']
    rw [List.contains_eq_any_beq]
    simp [List.any_eq_true]
  · intro targets oracle h
    exact ⟨runTargets_all_skipped oracle targets h, rfl, rfl⟩

/-- Witness for C10 with one skipped target. -/
theorem createOutput_spec_witness :
    wasSuccessfulOutput [("release-1".toList, true)] = true ∧
    runTargets ["release-1".toList]
      (fun _ => TargetOracle.mk .ok false (.done none) 0 .ok
        (.reqError 422 ["A pull request already exists for x:y.".toList]) false) =
      .ok ([], []) := by
  constructor
  · exact (createOutput_spec.1 _).mpr (by decide)
  · exact (createOutput_spec.2.2 _ _ (fun t _ =>
      ⟨rfl, rfl, ⟨none, rfl⟩, Or.inl rfl,
       ["A pull request already exists for x:y.".toList], rfl,
       "A pull request already exists for x:y.".toList, by simp, by decide⟩)).1

/-! ## C3 / C8: target branch resolution -/

theorem mem_dedupFirst {α : Type} [DecidableEq α] (l : List α) (a : α) :
    a ∈ dedupFirst l ↔ a ∈ l := by
  induction l using dedupFirst.induct with
  | case1 => simp [dedupFirst]
  | case2 x xs ih =>
    rw [dedupFirst]
    by_cases hax : a = x
    · simp [hax]
    · simp only [List.mem_cons, ih, List.mem_filter]
      constructor
      · rintro (rfl | ⟨h, _⟩)
        · exact absurd rfl hax
        · exact Or.inr h
      · rintro (rfl | h)
        · exact absurd rfl hax
        · exact Or.inr ⟨h, by simpa using hax⟩

theorem nodup_dedupFirst {α : Type} [DecidableEq α] (l : List α) :
    (dedupFirst l).Nodup := by
  induction l using dedupFirst.induct with
  | case1 => simp [dedupFirst]
  | case2 x xs ih =>
    rw [dedupFirst]
    refine List.Nodup.cons ?_ ih
    intro hmem
    have := (mem_dedupFirst _ _).mp hmem
    simp at this

theorem dedupFirst_sublist {α : Type} [DecidableEq α] (l : List α) :
    (dedupFirst l).Sublist l := by
  induction l using dedupFirst.induct with
  | case1 => simp [dedupFirst]
  | case2 x xs ih =>
    rw [dedupFirst]
    exact List.Sublist.cons₂ x (ih.trans (List.filter_sublist xs))

/-- C3: the resolved target branches never contain the head branch,
contain no duplicates, and keep first-seen order with label-derived
branches before the explicitly configured ones (they form a sublist of
the deduplicated label-then-configured union, and contain exactly its
elements other than the head branch). -/
theorem findTargetBranches_spec (pattern : Option PatternExec) (tb : Option Str)
    (labels : List Str) (headref : Str) :
    some headref ∉ findTargetBranches pattern tb labels headref ∧
    (findTargetBranches pattern tb labels headref).Nodup ∧
    (findTargetBranches pattern tb labels headref).Sublist
      (dedupFirst (findTargetBranchesFromLabels pattern labels ++
        (configuredTargetBranches tb).map some)) ∧
    (∀ x, x ∈ findTargetBranches pattern tb labels headref ↔
      (x ∈ findTargetBranchesFromLabels pattern labels ++
          (configuredTargetBranches tb).map some ∧
        x ≠ some headref)) := by
  simp only [findTargetBranches]
  refine ⟨?_, ?_, ?_, ?_⟩
  · simp [List.mem_filter]
  · exact (nodup_dedupFirst _).filter _
  · exact List.filter_sublist _
  · intro x
    simp [List.mem_filter, mem_dedupFirst]

/-- C8 counterexample: the code never compares the matched substring with
the label, so an unanchored pattern lets a label contribute a branch even
though the pattern does not match the full label text. -/
theorem capturesOfLabels_full_text_counterexample :
    ¬ (∀ (exec : PatternExec) (label : Str) (m : List (Option Str)),
        exec label = some m →
        findTargetBranchesFromLabels (some exec) [label] ≠ [] →
        m.getD 0 none = some label) := by
  intro h
  have hx := h unanchoredExec ("backport foo".toList)
    [some "port foo".toList, some "foo".toList] (by decide) (by decide)
  exact absurd hx (by decide)

/-- C8 (amended): a label contributes a target branch exactly when its
match array has length two — one capture slot — regardless of whether the
matched substring is the full label text; labels with no match or with
zero or several capture groups are skipped without an error, and the
contributed branch is the capture at index 1. -/
theorem findTargetBranchesFromLabels_amended :
    ∀ (exec : PatternExec) (label : Str) (rest : List Str),
      (exec label = none →
        findTargetBranchesFromLabels (some exec) (label :: rest) =
          findTargetBranchesFromLabels (some exec) rest) ∧
      (∀ m, exec label = some m → m.length ≠ 2 →
        findTargetBranchesFromLabels (some exec) (label :: rest) =
          findTargetBranchesFromLabels (some exec) rest) ∧
      (∀ m, exec label = some m → m.length = 2 →
        findTargetBranchesFromLabels (some exec) (label :: rest) =
          m.getD 1 none :: findTargetBranchesFromLabels (some exec) rest) := by
  intro exec label rest
  refine ⟨fun h => ?_, fun m h hlen => ?_, fun m h hlen => ?_⟩
  · simp [findTargetBranchesFromLabels, capturesOfLabels, h]
  · simp [findTargetBranchesFromLabels, capturesOfLabels, h, hlen]
  · simp [findTargetBranchesFromLabels, capturesOfLabels, h, hlen]

/-- Witness for the amended C8: a zero-capture-group match is skipped,
a one-capture match contributes. -/
theorem findTargetBranchesFromLabels_amended_witness :
    ((fun l => if l = "no capture group".toList
        then some [some "no capture group".toList] else none) :
      PatternExec) ("no capture group".toList) =
        some [some "no capture group".toList] ∧
    ([some "no capture group".toList] : List (Option Str)).length ≠ 2 ∧
    findTargetBranchesFromLabels
      (some (fun l => if l = "no capture group".toList
        then some [some "no capture group".toList] else none))
      ["no capture group".toList] = [] := by
  refine ⟨by decide, by decide, ?_⟩
  have h := ((findTargetBranchesFromLabels_amended
    (fun l => if l = "no capture group".toList
      then some [some "no capture group".toList] else none)
    ("no capture group".toList) []).2.1)
    [some "no capture group".toList] (by decide) (by decide)
  simpa using h

/-! ## C9: placeholder replacement replaces only the first occurrence -/

theorem isPre_self_app (p l : Str) : isPre p (p ++ l) = true := by
  induction p with
  | nil => rfl
  | cons a ps ih => simp [isPre, ih]

theorem replaceFirst_start (p rep l : Str) :
    replaceFirst p rep (p ++ l) = rep ++ l := by
  cases p with
  | nil =>
    cases l with
    | nil => simp [replaceFirst, isPre]
    | cons c r => simp [replaceFirst, isPre]
  | cons a ps =>
    show replaceFirst (a :: ps) rep (a :: (ps ++ l)) = rep ++ l
    rw [replaceFirst, if_pos (by simpa using isPre_self_app (a :: ps) l)]
    simp

theorem replaceFirst_skip (pt rep : Str) :
    ∀ a l : Str, '$' ∉ a →
      replaceFirst ('$' :: pt) rep (a ++ l) = a ++ replaceFirst ('$' :: pt) rep l := by
  intro a
  induction a with
  | nil => intro l _; rfl
  | cons c a' ih =>
    intro l ha
    have hc : ¬ ('$' = c) := fun h => ha (by simp [← h])
    rw [List.cons_append, replaceFirst, if_neg (by simp [isPre, hc])]
    rw [ih l (fun h => ha (by simp [h]))]
    rfl

theorem replaceFirst_none (pt rep : Str) :
    ∀ l : Str, '$' ∉ l → replaceFirst ('$' :: pt) rep l = l := by
  intro l
  induction l with
  | nil => intro _; rfl
  | cons c r ih =>
    intro hl
    have hc : ¬ ('$' = c) := fun h => hl (by simp [← h])
    rw [replaceFirst, if_neg (by simp [isPre, hc])]
    rw [ih (fun h => hl (by simp [h]))]

theorem isPre_append_cases (q : Str) :
    ∀ p r : Str, isPre q (p ++ r) = true →
      isPre q p = true ∨ isPre p q = true := by
  induction q with
  | nil => intro p r _; exact Or.inl rfl
  | cons a qs ih =>
    intro p r h
    cases p with
    | nil => exact Or.inr rfl
    | cons b ps =>
      rw [List.cons_append] at h
      simp only [isPre, Bool.and_eq_true, decide_eq_true_eq] at h ⊢
      rcases ih ps r h.2 with h2 | h2
      · exact Or.inl ⟨h.1, h2⟩
      · exact Or.inr ⟨h.1.symm, h2⟩

theorem phList_shape :
    ∀ p ∈ phList, p ≠ [] ∧ p.headD ' ' = '$' ∧ '$' ∉ p.tail := by decide

theorem phList_not_pre :
    ∀ p ∈ phList, ∀ q ∈ phList, p ≠ q → isPre p q = false := by decide

theorem phList_cons (p : Str) (hp : p ∈ phList) :
    p = '$' :: p.tail ∧ '$' ∉ p.tail := by
  obtain ⟨hne, hhead, htail⟩ := phList_shape p hp
  refine ⟨?_, htail⟩
  cases p with
  | nil => exact absurd rfl hne
  | cons c cs => simpa using congrArg (fun x => x :: cs) hhead

theorem replaceFirst_skip_ph (q p rep : Str) (hq : q ∈ phList) (hp : p ∈ phList)
    (hne : q ≠ p) (l : Str) :
    replaceFirst q rep (p ++ l) = p ++ replaceFirst q rep l := by
  obtain ⟨hpc, hpt⟩ := phList_cons p hp
  obtain ⟨hqc, _⟩ := phList_cons q hq
  have hnot : isPre q (p ++ l) = false := by
    cases hpre : isPre q (p ++ l) with
    | false => rfl
    | true =>
      rcases isPre_append_cases q p l hpre with h | h
      · rw [phList_not_pre q hq p hp hne] at h
        exact absurd h (by simp)
      · rw [phList_not_pre p hp q hq (fun hh => hne hh.symm)] at h
        exact absurd h (by simp)
  conv_lhs => rw [hpc]
  rw [List.cons_append]
  rw [hqc, replaceFirst]
  rw [if_neg (by rw [← hqc, ← List.cons_append, ← hpc]; simp [hnot])]
  rw [replaceFirst_skip _ _ _ _ hpt]
  rw [← hqc, ← List.cons_append, ← hpc]

theorem replaceFirst_preserve_one (q p rep : Str) (hq : q ∈ phList) (hp : p ∈ phList)
    (hne : q ≠ p) (a b : Str) (ha : '$' ∉ a) (hb : '$' ∉ b) :
    replaceFirst q rep (a ++ (p ++ b)) = a ++ (p ++ b) := by
  obtain ⟨hqc, _⟩ := phList_cons q hq
  rw [hqc, replaceFirst_skip _ _ _ _ ha, ← hqc]
  rw [replaceFirst_skip_ph q p rep hq hp hne]
  rw [hqc, replaceFirst_none _ _ _ hb]

theorem replaceFirst_preserve_two (q p rep : Str) (hq : q ∈ phList) (hp : p ∈ phList)
    (hne : q ≠ p) (a b c : Str) (ha : '$' ∉ a) (hb : '$' ∉ b) (hc : '$' ∉ c) :
    replaceFirst q rep (a ++ (p ++ (b ++ (p ++ c)))) =
      a ++ (p ++ (b ++ (p ++ c))) := by
  obtain ⟨hqc, _⟩ := phList_cons q hq
  rw [hqc, replaceFirst_skip _ _ _ _ ha, ← hqc]
  rw [replaceFirst_skip_ph q p rep hq hp hne]
  rw [hqc, replaceFirst_skip _ _ _ _ hb, ← hqc]
  rw [replaceFirst_skip_ph q p rep hq hp hne]
  rw [hqc, replaceFirst_none _ _ _ hc]

theorem replaceFirst_replace_two (p rep : Str) (hp : p ∈ phList)
    (a rest : Str) (ha : '$' ∉ a) :
    replaceFirst p rep (a ++ (p ++ rest)) = a ++ (rep ++ rest) := by
  obtain ⟨hpc, _⟩ := phList_cons p hp
  rw [hpc, replaceFirst_skip _ _ _ _ ha, ← hpc]
  rw [replaceFirst_start]

theorem phValue_author (g : Option Str → List Str) (m : MainPr) (t : Str) :
    phValue g m t ("${pull_author}".toList) = m.login := by
  rw [phValue, if_pos rfl]

theorem phValue_number (g : Option Str → List Str) (m : MainPr) (t : Str) :
    phValue g m t ("${pull_number}".toList) = natToDigits m.number := by
  rw [phValue, if_neg (by decide), if_pos rfl]

theorem phValue_title (g : Option Str → List Str) (m : MainPr) (t : Str) :
    phValue g m t ("${pull_title}".toList) = m.title := by
  rw [phValue, if_neg (by decide), if_neg (by decide), if_pos rfl]

theorem phValue_description (g : Option Str → List Str) (m : MainPr) (t : Str) :
    phValue g m t ("${pull_description}".toList) = m.body.getD [] := by
  rw [phValue, if_neg (by decide), if_neg (by decide), if_neg (by decide), if_pos rfl]

theorem phValue_target (g : Option Str → List Str) (m : MainPr) (t : Str) :
    phValue g m t ("${target_branch}".toList) = t := by
  rw [phValue, if_neg (by decide), if_neg (by decide), if_neg (by decide),
    if_neg (by decide), if_pos rfl]

theorem phValue_refs (g : Option Str → List Str) (m : MainPr) (t : Str) :
    phValue g m t ("${issue_refs}".toList) = joinSep [' '] (g m.body) := by
  rw [phValue, if_neg (by decide), if_neg (by decide), if_neg (by decide),
    if_neg (by decide), if_neg (by decide), if_pos rfl]

theorem replacePlaceholders_eq_fold (getRefs : Option Str → List Str)
    (template : Str) (main : MainPr) (target : Str) :
    replacePlaceholders getRefs template main target =
      List.foldl
        (fun acc q => replaceFirst q (phValue getRefs main target q) acc)
        template phList := by
  simp only [phList, List.foldl_cons, List.foldl_nil]
  rw [phValue_author, phValue_number, phValue_title, phValue_description,
    phValue_target, phValue_refs]
  rfl

theorem fold_rf_preserve_one (v : Str → Str) (p : Str) (hp : p ∈ phList)
    (a b : Str) (ha : '$' ∉ a) (hb : '$' ∉ b) :
    ∀ qs : List Str, (∀ q ∈ qs, q ∈ phList) → p ∉ qs →
      List.foldl (fun acc q => replaceFirst q (v q) acc) (a ++ (p ++ b)) qs =
        a ++ (p ++ b) := by
  intro qs
  induction qs with
  | nil => intro _ _; rfl
  | cons q qs' ih =>
    intro hmem hnp
    rw [List.foldl_cons]
    rw [replaceFirst_preserve_one q p (v q) (hmem q (by simp)) hp
      (fun h => hnp (by simp [h])) a b ha hb]
    exact ih (fun x hx => hmem x (by simp [hx])) (fun h => hnp (by simp [h]))

theorem fold_rf_two (v : Str → Str) (p : Str) (hp : p ∈ phList)
    (a b c : Str) (ha : '$' ∉ a) (hb : '$' ∉ b) (hc : '$' ∉ c)
    (hv : '$' ∉ v p) :
    ∀ qs : List Str, (∀ q ∈ qs, q ∈ phList) → qs.Nodup → p ∈ qs →
      List.foldl (fun acc q => replaceFirst q (v q) acc)
          (a ++ (p ++ (b ++ (p ++ c)))) qs =
        a ++ (v p ++ (b ++ (p ++ c))) := by
  intro qs
  induction qs with
  | nil => intro _ _ h; exact absurd h (by simp)
  | cons q qs' ih =>
    intro hmem hnd hpin
    rw [List.foldl_cons]
    by_cases hqp : q = p
    · rw [hqp]
      rw [replaceFirst_replace_two p (v p) hp a (b ++ (p ++ c)) ha]
      have hpn : p ∉ qs' := by
        have := (List.nodup_cons.mp hnd).1
        rw [hqp] at this
        exact this
      have hassoc : a ++ (v p ++ (b ++ (p ++ c))) = (a ++ v p ++ b) ++ (p ++ c) := by
        simp [List.append_assoc]
      rw [hassoc]
      rw [fold_rf_preserve_one v p hp (a ++ v p ++ b) c
        (by simp only [List.mem_append]; rintro ((h | h) | h)
            · exact ha h
            · exact hv h
            · exact hb h)
        hc qs' (fun x hx => hmem x (by simp [hx])) hpn]
    · rw [replaceFirst_preserve_two q p (v q) (hmem q (by simp)) hp hqp a b c ha hb hc]
      exact ih (fun x hx => hmem x (by simp [hx])) (List.Nodup.of_cons hnd)
        (by rcases List.mem_cons.mp hpin with h | h
            · exact absurd h.symm hqp
            · exact h)

/-- C9: `replacePlaceholders` substitutes only the first occurrence of
each placeholder: in a template containing a placeholder twice, the
first occurrence is replaced by its value and the later occurrence is
left verbatim (stated for segments and values free of `$`, so that no
other placeholder occurs). -/
theorem replacePlaceholders_first_only (getRefs : Option Str → List Str)
    (main : MainPr) (target : Str) (t1 t2 t3 p : Str)
    (hp : p ∈ phList)
    (h1 : '$' ∉ t1) (h2 : '$' ∉ t2) (h3 : '$' ∉ t3)
    (hv : ∀ q ∈ phList, '$' ∉ phValue getRefs main target q) :
    replacePlaceholders getRefs (t1 ++ (p ++ (t2 ++ (p ++ t3)))) main target =
      t1 ++ (phValue getRefs main target p ++ (t2 ++ (p ++ t3))) := by
  rw [replacePlaceholders_eq_fold]
  exact fold_rf_two (phValue getRefs main target) p hp t1 t2 t3 h1 h2 h3
    (hv p hp) phList (fun q hq => hq) (by decide) hp

/-- Witness for C9: the pull number placeholder appears twice; only the
first occurrence is substituted. -/
theorem replacePlaceholders_first_only_witness :
    ("${pull_number}".toList ∈ phList ∧
      '$' ∉ "x ".toList ∧ '$' ∉ " y ".toList ∧ '$' ∉ " z".toList ∧
      (∀ q ∈ phList,
        '$' ∉ phValue (fun _ => []) (MainPr.mk none "me".toList 42 "T".toList)
          "r".toList q)) ∧
    replacePlaceholders (fun _ => [])
      ("x ".toList ++ ("${pull_number}".toList ++
        (" y ".toList ++ ("${pull_number}".toList ++ " z".toList))))
      (MainPr.mk none "me".toList 42 "T".toList) "r".toList =
      "x ".toList ++ (natToDigits 42 ++
        (" y ".toList ++ ("${pull_number}".toList ++ " z".toList))) := by
  refine ⟨⟨by decide, by decide, by decide, by decide, by decide⟩, ?_⟩
  have h := replacePlaceholders_first_only (fun _ => [])
    (MainPr.mk none "me".toList 42 "T".toList) "r".toList
    "x ".toList " y ".toList " z".toList "${pull_number}".toList
    (by decide) (by decide) (by decide) (by decide) (by decide)
  rw [h, phValue_number]

/-! ## C4: unsupported dashboard versions are never rewritten -/

set_option maxRecDepth 100000 in
/-- C4: when the stored body's first line carries no version marker with
value at least 1, the parse fails and `createOrUpdateDashboard` performs
no write at all — it never rewrites a record it cannot parse. -/
theorem createOrUpdateDashboard_skips_unparseable (i : Issue) (b : Str)
    (prOpen : Nat → Bool) (n : Int) (t : Str) (bps : List (Nat × Str))
    (ds : Option (Str × Str))
    (hb : i.body = some b)
    (hv : (findVersionMarker ((splitNl b).headD [])).getD 0 < 1) :
    parseDashboard b = none ∧
    createOrUpdateDashboard (some i) prOpen n t bps ds = .noWrite := by
  have hp : parseDashboard b = none := by
    simp only [parseDashboard]
    rw [if_pos hv]
  refine ⟨hp, ?_⟩
  simp only [createOrUpdateDashboard, hb, Option.getD_some, hp]

set_option maxRecDepth 4000 in
/-- Witness for C4: a stored body with no version marker is left alone. -/
theorem createOrUpdateDashboard_skips_unparseable_witness :
    (Issue.mk 7 (some "junk".toList)).body = some "junk".toList ∧
    (findVersionMarker ((splitNl "junk".toList).headD [])).getD 0 < 1 ∧
    parseDashboard "junk".toList = none ∧
    createOrUpdateDashboard (some (Issue.mk 7 (some "junk".toList)))
      (fun _ => true) 123 "T".toList [] none = .noWrite := by
  refine ⟨rfl, by decide, ?_⟩
  exact createOrUpdateDashboard_skips_unparseable _ _ _ _ _ _ _ rfl (by decide)

/-! ## C5: dashboard render / parse round trip -/

theorem splitNl_ne_nil (l : Str) : splitNl l ≠ [] := by
  cases l with
  | nil => simp [splitNl]
  | cons c cs =>
    rw [splitNl]
    rcases h : splitNl cs with _ | ⟨h1, t1⟩
    · simp
    · by_cases hc : c = '\n' <;> simp [hc]

theorem splitNl_append_nl (a b : Str) (ha : '\n' ∉ a) :
    splitNl (a ++ '\n' :: b) = a :: splitNl b := by
  induction a with
  | nil =>
    rw [List.nil_append]
    rw [splitNl]
    rcases h : splitNl b with _ | ⟨h1, t1⟩
    · exact absurd h (splitNl_ne_nil b)
    · simp [h]
  | cons c a' ih =>
    have hc : ¬ (c = '\n') := fun h => ha (by simp [h])
    rw [List.cons_append, splitNl]
    rw [ih (fun h => ha (by simp [h]))]
    simp [hc]

theorem splitNl_no_nl (a : Str) (ha : '\n' ∉ a) : splitNl a = [a] := by
  induction a with
  | nil => rfl
  | cons c a' ih =>
    have hc : ¬ (c = '\n') := fun h => ha (by simp [h])
    rw [splitNl, ih (fun h => ha (by simp [h]))]
    simp [hc]

theorem trimLeftL_cons_of (c : Char) (l : Str) (h : isJsSpace c = false) :
    trimLeftL (c :: l) = c :: l := by
  simp [trimLeftL, List.dropWhile_cons, h]

theorem trimRightL_append (l t : Str) (ht : trimRightL t = t) (hne : t ≠ []) :
    trimRightL (l ++ t) = l ++ t := by
  have hrev : t.reverse.dropWhile isJsSpace = t.reverse := by
    have h2 := congrArg List.reverse ht
    rw [trimRightL, List.reverse_reverse] at h2
    exact h2
  cases hr : t.reverse with
  | nil =>
    exact absurd (by simpa using congrArg List.reverse hr) hne
  | cons x xs =>
    have hx : isJsSpace x = false := by
      rw [hr, List.dropWhile_cons] at hrev
      by_cases hpx : isJsSpace x = true
      · rw [if_pos hpx] at hrev
        have hle := (List.dropWhile_sublist (l := xs) isJsSpace).length_le
        have := congrArg List.length hrev
        simp at this
        omega
      · simpa using hpx
    have key : (l ++ t).reverse.dropWhile isJsSpace = (l ++ t).reverse := by
      rw [List.reverse_append, hr, List.cons_append, List.dropWhile_cons, if_neg (by simp [hx])]
    rw [trimRightL, key, List.reverse_reverse]

theorem trimL_eq_parts (t : Str) (h : trimL t = t) :
    trimLeftL t = t ∧ trimRightL t = t := by
  have hsub1 : List.Sublist (trimLeftL t) t := List.dropWhile_sublist _
  have hsub2 : List.Sublist (trimL t) (trimLeftL t) := by
    rw [trimL, trimRightL]
    have hs := (List.dropWhile_sublist (l := (trimLeftL t).reverse) isJsSpace).reverse
    simpa using hs
  have hlen : (trimLeftL t).length = t.length := by
    have h1 := hsub1.length_le
    have h2 := hsub2.length_le
    rw [h] at h2
    omega
  have hL : trimLeftL t = t := hsub1.eq_of_length hlen
  refine ⟨hL, ?_⟩
  calc trimRightL t = trimRightL (trimLeftL t) := by rw [hL]
  _ = trimL t := rfl
  _ = t := h

theorem head_not_space_of_trimLeft (c : Char) (cs : Str)
    (h : trimLeftL (c :: cs) = c :: cs) : isJsSpace c = false := by
  by_contra hc
  rw [Bool.not_eq_false] at hc
  rw [trimLeftL, List.dropWhile_cons, if_pos hc] at h
  have hle := (List.dropWhile_sublist (l := cs) isJsSpace).length_le
  have := congrArg List.length h
  simp at this
  omega

theorem trimL_of_shape (l : Str) (c : Char) (cs : Str) (hl : l = c :: cs)
    (hc : isJsSpace c = false) (hr : trimRightL l = l) : trimL l = l := by
  rw [trimL, hl, trimLeftL_cons_of _ _ hc, ← hl, hr]

theorem findIdx?_append_first {α : Type} (p : α → Bool) (a : List α) (x : α)
    (b : List α) (hx : p x = true) (ha : ∀ y ∈ a, p y = false) :
    List.findIdx? p (a ++ x :: b) = some a.length := by
  induction a with
  | nil => simp [List.findIdx?_cons, hx]
  | cons c a' ih =>
    rw [List.cons_append, List.findIdx?_cons]
    rw [if_neg (by simp [ha c (by simp)])]
    rw [List.findIdx?_start_succ]
    rw [ih (fun y hy => ha y (by simp [hy]))]
    simp

theorem intToDigits_toNat_mem {n : Int} {c : Char} (h : c ∈ intToDigits n) :
    c.toNat = 45 ∨ (48 ≤ c.toNat ∧ c.toNat ≤ 57) := by
  rw [intToDigits] at h
  split at h
  · rcases List.mem_cons.mp h with h | h
    · subst h
      left
      decide
    · exact Or.inr (natToDigits_toNat_mem h)
  · exact Or.inr (natToDigits_toNat_mem h)

theorem not_space_of_digit (c : Char) (h : c.isDigit = true) :
    isJsSpace c = false := by
  have h2 := (charIsDigit_iff c).mp h
  by_contra hc
  rw [Bool.not_eq_false] at hc
  simp only [isJsSpace, Bool.or_eq_true, decide_eq_true_eq] at hc
  rcases hc with ((((h3 | h3) | h3) | h3) | h3) | h3 <;>
    (subst h3; exact absurd h2 (by decide))

theorem trimRightL_natToDigits (m : Nat) :
    trimRightL (natToDigits m) = natToDigits m := by
  have key : (natToDigits m).reverse.dropWhile isJsSpace = (natToDigits m).reverse := by
    cases h : (natToDigits m).reverse with
    | nil => simp
    | cons d rest =>
      have hd : d ∈ natToDigits m := by
        have h2 : d ∈ (natToDigits m).reverse := by rw [h]; simp
        simpa using h2
      rw [List.dropWhile_cons,
        if_neg (by simp [not_space_of_digit _ (natToDigits_isDigit hd)])]
  rw [trimRightL, key, List.reverse_reverse]

theorem parseIntJs_natToDigits (m : Nat) :
    parseIntJs (natToDigits m) = some (m : Int) := by
  obtain ⟨c, cs, hc⟩ : ∃ c cs, natToDigits m = c :: cs := by
    cases h : natToDigits m with
    | nil => exact absurd h (natToDigits_ne_nil m)
    | cons c cs => exact ⟨c, cs, rfl⟩
  have hcd : c.isDigit = true := natToDigits_isDigit (by rw [hc]; simp)
  have htn := (charIsDigit_iff c).mp hcd
  have hdrop : (natToDigits m).dropWhile isJsSpace = c :: cs := by
    rw [hc, List.dropWhile_cons, if_neg (by simp [not_space_of_digit _ hcd])]
  have hnm : c ≠ '-' := fun h => by subst h; exact absurd htn (by decide)
  have hnp : c ≠ '+' := fun h => by subst h; exact absurd htn (by decide)
  rw [parseIntJs, hdrop]
  simp only [if_neg hnm, if_neg hnp]
  rw [← hc, parseDigitsNat_natToDigits_nil]
  rfl

theorem parseIntJs_intToDigits (n : Int) :
    parseIntJs (intToDigits n) = some n := by
  by_cases hn : n < 0
  · rw [intToDigits, if_pos hn]
    have hdrop : ('-' :: natToDigits n.natAbs).dropWhile isJsSpace =
        '-' :: natToDigits n.natAbs := by
      rw [List.dropWhile_cons, if_neg (by decide)]
    rw [parseIntJs, hdrop]
    split
    · rename_i heq
      exact absurd heq (by simp)
    · rename_i c r heq
      injection heq with h1 h2
      subst h1
      subst h2
      rw [if_pos rfl, parseDigitsNat_natToDigits_nil]
      simp only [Option.bind_eq_bind, Option.some_bind, Option.map_some',
        Option.some.injEq, pure]
      omega
  · rw [intToDigits, if_neg hn]
    rw [parseIntJs_natToDigits]
    congr 1
    omega

theorem sanitizeTitle_eq (t : Str) (h : '\n' ∉ t) : sanitizeTitle t = t := by
  induction t with
  | nil => rfl
  | cons c cs ih =>
    simp only [sanitizeTitle, List.map_cons]
    rw [if_neg (fun hc => h (by simp [hc]))]
    have h2 := ih (fun hm => h (by simp [hm]))
    simp only [sanitizeTitle] at h2
    rw [h2]

theorem natToDigits_not_mem (m : Nat) (c : Char)
    (hc : c.toNat < 48 ∨ 57 < c.toNat) : c ∉ natToDigits m := by
  intro h
  have := natToDigits_toNat_mem h
  omega

theorem intToDigits_not_mem (n : Int) (c : Char)
    (hc : c.toNat ≠ 45 ∧ (c.toNat < 48 ∨ 57 < c.toNat)) : c ∉ intToDigits n := by
  intro h
  rcases intToDigits_toNat_mem h with h2 | h2 <;> omega

theorem trimRightL_intToDigits (n : Int) :
    trimRightL (intToDigits n) = intToDigits n := by
  rw [intToDigits]
  split
  · have h := trimRightL_append ['-'] (natToDigits n.natAbs)
      (trimRightL_natToDigits _) (natToDigits_ne_nil _)
    simpa using h
  · exact trimRightL_natToDigits _

theorem parseHeaderLine_render (n : Int) (title : Str)
    (htr : trimL title = title) :
    parseHeaderLine ("## #".toList ++ (intToDigits n ++ (' ' :: title))) =
      some (n, title) := by
  have hfind : findIdxFrom ' ' 4
      ("## #".toList ++ (intToDigits n ++ (' ' :: title))) =
      some ((intToDigits n).length + 4) := by
    rw [findIdxFrom]
    rw [List.drop_left' (show ("## #".toList : Str).length = 4 from rfl)]
    rw [findIdx?_append_first (· = ' ') (intToDigits n) ' ' title (by simp)
      (fun y hy => by
        simp only [decide_eq_false_iff_not]
        intro h
        exact (intToDigits_not_mem n ' ' (by decide)) (h ▸ hy))]
    rfl
  have hsub : substrL 4 ((intToDigits n).length + 4)
      ("## #".toList ++ (intToDigits n ++ (' ' :: title))) = intToDigits n := by
    rw [substrL]
    rw [Nat.max_eq_right (by omega), Nat.min_eq_left (by omega)]
    have hline : "## #".toList ++ (intToDigits n ++ (' ' :: title)) =
        ("## #".toList ++ intToDigits n) ++ (' ' :: title) := by simp
    rw [hline]
    rw [List.take_left' (by simp; try omega)]
    rw [List.drop_left' (show ("## #".toList : Str).length = 4 from rfl)]
  have hdropt : substrFrom ((intToDigits n).length + 4 + 1)
      ("## #".toList ++ (intToDigits n ++ (' ' :: title))) = title := by
    rw [substrFrom]
    have hline : "## #".toList ++ (intToDigits n ++ (' ' :: title)) =
        ("## #".toList ++ intToDigits n ++ [' ']) ++ title := by simp
    rw [hline]
    rw [List.drop_left' (by simp; try omega)]
  simp only [parseHeaderLine, hfind, hsub, parseIntJs_intToDigits, hdropt, htr]

theorem parseItemLine_render (b : BackportEntry) (hb : GoodBackport b) :
    parseItemLine ('-' :: ' ' :: btick ::
      (b.branch ++ (btick :: ':' :: ' ' :: '#' :: natToDigits b.number))) =
      some b := by
  obtain ⟨hbne, hbcolon, hbnl, hbesc⟩ := hb
  have i0 : List.findIdx? (· = btick)
      (btick :: (b.branch ++ (btick :: ':' :: ' ' :: '#' :: natToDigits b.number))) =
      some 0 := by
    rw [List.findIdx?_cons, if_pos (by decide)]
  have i1 : List.findIdx? (· = btick)
      (' ' :: btick :: (b.branch ++ (btick :: ':' :: ' ' :: '#' :: natToDigits b.number))) =
      some 1 := by
    rw [List.findIdx?_cons, if_neg (by decide), List.findIdx?_start_succ, i0]
    rfl
  have h2 : findIdxFrom btick 0 ('-' :: ' ' :: btick ::
      (b.branch ++ (btick :: ':' :: ' ' :: '#' :: natToDigits b.number))) = some 2 := by
    rw [findIdxFrom, List.drop_zero]
    rw [List.findIdx?_cons, if_neg (by decide), List.findIdx?_start_succ, i1]
    rfl
  have h3 : substrL 1 2 ('-' :: ' ' :: btick ::
      (b.branch ++ (btick :: ':' :: ' ' :: '#' :: natToDigits b.number))) = [' '] := rfl
  have h5 : findIdxFrom ':' 3 ('-' :: ' ' :: btick ::
      (b.branch ++ (btick :: ':' :: ' ' :: '#' :: natToDigits b.number))) =
      some (b.branch.length + 4) := by
    rw [findIdxFrom]
    have hdrop3 : ('-' :: ' ' :: btick ::
        (b.branch ++ (btick :: ':' :: ' ' :: '#' :: natToDigits b.number))).drop 3 =
        (b.branch ++ [btick]) ++ (':' :: ' ' :: '#' :: natToDigits b.number) := by
      simp
    rw [hdrop3]
    rw [findIdx?_append_first (· = ':') (b.branch ++ [btick]) ':'
      (' ' :: '#' :: natToDigits b.number) (by simp)
      (fun y hy => by
        simp only [decide_eq_false_iff_not]
        intro h
        subst h
        rcases List.mem_append.mp hy with h | h
        · exact hbcolon h
        · simp at h
          exact absurd (congrArg Char.toNat h) (by decide))]
    simp only [Option.map_some', List.length_append, List.length_singleton]
  have h6 : substrL 3 (b.branch.length + 4) ('-' :: ' ' :: btick ::
      (b.branch ++ (btick :: ':' :: ' ' :: '#' :: natToDigits b.number))) =
      b.branch ++ [btick] := by
    rw [substrL, Nat.max_eq_right (by omega), Nat.min_eq_left (by omega)]
    have hline : ('-' :: ' ' :: btick ::
        (b.branch ++ (btick :: ':' :: ' ' :: '#' :: natToDigits b.number))) =
        ('-' :: ' ' :: btick :: (b.branch ++ [btick])) ++
          (':' :: ' ' :: '#' :: natToDigits b.number) := by
      simp
    rw [hline, List.take_left' (by simp; try omega)]
    simp
  have h7 : lastIdxOfC btick (b.branch ++ [btick]) = some b.branch.length := by
    rw [lastIdxOfC]
    have hfi : (b.branch ++ [btick]).reverse.findIdx? (· = btick) = some 0 := by
      rw [List.reverse_append]
      simp only [List.reverse_singleton, List.singleton_append]
      rw [List.findIdx?_cons, if_pos (by decide)]
    rw [hfi]
    simp only [Option.map_some', Option.some.injEq, List.length_append,
      List.length_singleton]
    omega
  have h8 : substrFrom (b.branch.length + 1) (b.branch ++ [btick]) = [] := by
    rw [substrFrom]
    exact List.drop_eq_nil_of_le (by simp)
  have h9 : substrL 0 b.branch.length (b.branch ++ [btick]) = b.branch := by
    rw [substrL, Nat.max_eq_right (Nat.zero_le _), Nat.min_eq_left (Nat.zero_le _)]
    simp [List.take_left]
  have h10 : substrFrom (b.branch.length + 4 + 1) ('-' :: ' ' :: btick ::
      (b.branch ++ (btick :: ':' :: ' ' :: '#' :: natToDigits b.number))) =
      ' ' :: '#' :: natToDigits b.number := by
    rw [substrFrom]
    have hline : ('-' :: ' ' :: btick ::
        (b.branch ++ (btick :: ':' :: ' ' :: '#' :: natToDigits b.number))) =
        ('-' :: ' ' :: btick :: (b.branch ++ [btick, ':'])) ++
          (' ' :: '#' :: natToDigits b.number) := by
      simp
    rw [hline, List.drop_left' (by simp; try omega)]
  have h11 : trimL (' ' :: '#' :: natToDigits b.number) =
      '#' :: natToDigits b.number := by
    rw [trimL, trimLeftL, List.dropWhile_cons, if_pos (by decide),
      List.dropWhile_cons, if_neg (by decide)]
    have := trimRightL_append ['#'] (natToDigits b.number)
      (trimRightL_natToDigits _) (natToDigits_ne_nil _)
    simpa using this
  have h12 : lastIdxOfC '#' ('#' :: natToDigits b.number) = some 0 := by
    rw [lastIdxOfC]
    have hfi : ('#' :: natToDigits b.number).reverse.findIdx? (· = '#') =
        some (natToDigits b.number).length := by
      rw [List.reverse_cons]
      rw [findIdx?_append_first (· = '#') (natToDigits b.number).reverse '#' []
        (by simp)
        (fun y hy => by
          simp only [decide_eq_false_iff_not]
          intro h
          subst h
          exact (natToDigits_not_mem b.number '#' (by decide))
            (List.mem_reverse.mp hy))]
      simp
    rw [hfi]
    simp only [Option.map_some', Option.some.injEq, List.length_cons]
    omega
  have h13 : substrFrom 1 ('#' :: natToDigits b.number) = natToDigits b.number := rfl
  simp only [parseItemLine, h2, h3, h5, h6, h7, h8, h9, h10, h11, h12, h13]
  simp [hbne, parseDigitsNat_natToDigits_nil]
  decide

theorem isPre_hash_of_dash (rest : Str) :
    isPre ("## #".toList) ('-' :: rest) = false := by
  rw [show ("## #".toList : Str) = '#' :: "# #".toList from rfl, isPre]
  rw [show (decide (('#' : Char) = '-')) = false from by decide]
  simp

theorem isPre_dash_cons (rest : Str) :
    isPre ("-".toList) ('-' :: rest) = true := by
  rw [show ("-".toList : Str) = ['-'] from rfl, isPre]
  simp [isPre]

theorem parseStep_blank (st : List DashboardEntry × Option DashboardEntry) :
    parseStep st [] = st := by
  rw [parseStep]
  rw [show trimL [] = [] from rfl]
  rw [show isPre ("## #".toList) [] = false from by decide]
  rw [show isPre ("-".toList) [] = false from by decide]
  simp

theorem trimL_headerLine (e : DashboardEntry) (he : GoodEntry e) :
    trimL (renderEntryHeaderLine e) = renderEntryHeaderLine e := by
  obtain ⟨hne, hnl, htr, _⟩ := he
  have hsan : sanitizeTitle e.originalPrTitle = e.originalPrTitle :=
    sanitizeTitle_eq _ hnl
  have hr : trimRightL (renderEntryHeaderLine e) = renderEntryHeaderLine e := by
    have happ : renderEntryHeaderLine e =
        ("## #".toList ++ intToDigits e.originalPrNumber ++ [' ']) ++
          e.originalPrTitle := by
      rw [renderEntryHeaderLine, hsan]
      simp
    rw [happ]
    exact trimRightL_append _ _ (trimL_eq_parts _ htr).2 hne
  exact trimL_of_shape _ '#'
    ('#' :: ' ' :: '#' :: (intToDigits e.originalPrNumber ++
      ' ' :: sanitizeTitle e.originalPrTitle)) rfl (by decide) hr

theorem itemLine_shape (b : BackportEntry) (hesc : escapeBranch b.branch = b.branch) :
    renderItemLine none b = '-' :: ' ' :: btick ::
      (b.branch ++ (btick :: ':' :: ' ' :: '#' :: natToDigits b.number)) := by
  rw [renderItemLine, renderLink, hesc]
  simp

theorem trimL_itemLine (b : BackportEntry) (hb : GoodBackport b) :
    trimL (renderItemLine none b) = renderItemLine none b := by
  have hr : trimRightL (renderItemLine none b) = renderItemLine none b := by
    have happ : renderItemLine none b =
        ('-' :: ' ' :: btick :: (b.branch ++ [btick, ':', ' ', '#'])) ++
          natToDigits b.number := by
      rw [itemLine_shape b hb.2.2.2]
      simp
    rw [happ]
    exact trimRightL_append _ _ (trimRightL_natToDigits _) (natToDigits_ne_nil _)
  exact trimL_of_shape _ '-'
    (' ' :: btick :: (b.branch ++ (btick :: ':' :: ' ' :: '#' :: natToDigits b.number)))
    (by rw [itemLine_shape b hb.2.2.2]) (by decide) hr

theorem parseStep_header (e : DashboardEntry) (he : GoodEntry e)
    (fin : List DashboardEntry) (cur : Option DashboardEntry) :
    parseStep (fin, cur) (renderEntryHeaderLine e) =
      (fin ++ cur.toList, some ⟨e.originalPrNumber, e.originalPrTitle, []⟩) := by
  have hsan : sanitizeTitle e.originalPrTitle = e.originalPrTitle :=
    sanitizeTitle_eq _ he.2.1
  have hshape : renderEntryHeaderLine e =
      "## #".toList ++ (intToDigits e.originalPrNumber ++ (' ' :: e.originalPrTitle)) := by
    rw [renderEntryHeaderLine, hsan]
    simp
  have htrim := trimL_headerLine e he
  rw [parseStep]
  rw [htrim, hshape, if_pos (by simpa using isPre_self_app "## #".toList _)]
  rw [parseHeaderLine_render _ _ he.2.2.1]

theorem parseStep_item (b : BackportEntry) (hb : GoodBackport b)
    (fin : List DashboardEntry) (cur : DashboardEntry) :
    parseStep (fin, some cur) (renderItemLine none b) =
      (fin, some ⟨cur.originalPrNumber, cur.originalPrTitle,
        cur.backports ++ [b]⟩) := by
  have htrim := trimL_itemLine b hb
  have hshape := itemLine_shape b hb.2.2.2
  rw [parseStep]
  rw [htrim]
  rw [if_neg (by rw [hshape, isPre_hash_of_dash]; simp)]
  rw [if_pos (by rw [hshape]; constructor
                 · simpa using isPre_dash_cons _
                 · simp)]
  rw [hshape, parseItemLine_render b hb]

theorem splitNl_nl_cons (b : Str) : splitNl ('\n' :: b) = [] :: splitNl b := by
  have h := splitNl_append_nl [] b (by simp)
  simpa using h

theorem nl_not_mem_headerLine (e : DashboardEntry) (he : GoodEntry e) :
    '\n' ∉ renderEntryHeaderLine e := by
  rw [renderEntryHeaderLine, sanitizeTitle_eq _ he.2.1]
  intro h
  simp only [List.append_assoc, List.mem_append, List.mem_cons] at h
  rcases h with h | h | h | h
  · exact absurd h (by decide)
  · exact (intToDigits_not_mem _ '\n' (by decide)) h
  · exact absurd h (by decide)
  · exact he.2.1 h

theorem nl_not_mem_itemLine (b : BackportEntry) (hb : GoodBackport b) :
    '\n' ∉ renderItemLine none b := by
  rw [itemLine_shape b hb.2.2.2]
  intro h
  simp only [List.mem_cons, List.mem_append] at h
  rcases h with h | h | h | h | h | h | h | h | h
  · exact absurd h (by decide)
  · exact absurd h (by decide)
  · exact absurd h (by decide)
  · exact hb.2.2.1 h
  · exact absurd h (by decide)
  · exact absurd h (by decide)
  · exact absurd h (by decide)
  · exact absurd h (by decide)
  · exact (natToDigits_not_mem _ '\n' (by decide)) h

theorem splitNl_items (bs : List BackportEntry)
    (hbs : ∀ b ∈ bs, GoodBackport b) (z : Str) :
    splitNl ((bs.map (fun b => renderItemLine none b ++ ['\n'])).flatten ++ z) =
      bs.map (renderItemLine none) ++ splitNl z := by
  induction bs with
  | nil => simp
  | cons b bs' ih =>
    simp only [List.map_cons, List.flatten_cons]
    have hassoc : ((renderItemLine none b ++ ['\n']) ++
        (bs'.map (fun b => renderItemLine none b ++ ['\n'])).flatten) ++ z =
        renderItemLine none b ++ '\n' ::
          ((bs'.map (fun b => renderItemLine none b ++ ['\n'])).flatten ++ z) := by
      simp
    rw [hassoc]
    rw [splitNl_append_nl _ _ (nl_not_mem_itemLine b (hbs b (by simp)))]
    rw [ih (fun x hx => hbs x (by simp [hx]))]
    simp

theorem splitNl_renderTail :
    ∀ (es : List DashboardEntry) (l : Str), '\n' ∉ l →
      (∀ e ∈ es, GoodEntry e) →
      splitNl (l ++ renderTail none es) = l :: dashTailLines es := by
  intro es
  induction es with
  | nil =>
    intro l hl _
    rw [renderTail]
    simp only [List.map_nil, List.flatten_nil, List.append_nil]
    rw [splitNl_no_nl l hl, dashTailLines]
  | cons e rest ih =>
    intro l hl hg
    have hge := hg e (by simp)
    have hT : l ++ renderTail none (e :: rest) =
        l ++ '\n' :: (renderEntryHeaderLine e ++ '\n' ::
          ((e.backports.map (fun b => renderItemLine none b ++ ['\n'])).flatten ++
            renderTail none rest)) := by
      rw [renderTail, List.map_cons, List.flatten_cons]
      simp only [renderTail]
      simp
    rw [hT]
    rw [splitNl_append_nl l _ hl]
    rw [splitNl_append_nl _ _ (nl_not_mem_headerLine e hge)]
    rw [splitNl_items e.backports hge.2.2.2 _]
    have hrest := ih [] (by simp) (fun x hx => hg x (by simp [hx]))
    rw [List.nil_append] at hrest
    rw [hrest]
    rw [dashTailLines]

theorem foldl_parseStep_items (bs : List BackportEntry)
    (hbs : ∀ b ∈ bs, GoodBackport b) :
    ∀ (fin : List DashboardEntry) (n : Int) (t : Str) (acc : List BackportEntry),
      List.foldl parseStep (fin, some ⟨n, t, acc⟩) (bs.map (renderItemLine none)) =
        (fin, some ⟨n, t, acc ++ bs⟩) := by
  induction bs with
  | nil => intro fin n t acc; simp
  | cons b bs' ih =>
    intro fin n t acc
    rw [List.map_cons, List.foldl_cons, parseStep_item b (hbs b (by simp))]
    rw [ih (fun x hx => hbs x (by simp [hx])) fin n t (acc ++ [b])]
    simp

theorem foldl_parseStep_tail :
    ∀ (es : List DashboardEntry), (∀ e ∈ es, GoodEntry e) →
      ∀ (fin : List DashboardEntry) (cur : Option DashboardEntry),
        List.foldl parseStep (fin, cur) (dashTailLines es) =
          if es = [] then (fin, cur)
          else (fin ++ cur.toList ++ es.dropLast, es.getLast?) := by
  intro es
  induction es with
  | nil => intro _ fin cur; simp [dashTailLines]
  | cons e rest ih =>
    intro hg fin cur
    rw [if_neg (by simp)]
    rw [dashTailLines, List.foldl_cons, parseStep_header e (hg e (by simp))]
    rw [List.foldl_append]
    rw [foldl_parseStep_items e.backports (hg e (by simp)).2.2.2 _ _ _ []]
    rw [List.foldl_cons, parseStep_blank]
    rw [ih (fun x hx => hg x (by simp [hx]))]
    by_cases hr : rest = []
    · subst hr
      simp
    · rw [if_neg hr]
      cases rest with
      | nil => exact absurd rfl hr
      | cons r rs =>
        simp [List.getLast?_cons_cons, List.dropLast_cons₂]

set_option maxRecDepth 100000 in
theorem parseDashboard_header_steps :
    List.foldl parseStep ([], none) [hdrL0, hdrL1, [], hdrL3, hdrL4, [], hdrL6] =
      (([] : List DashboardEntry), (none : Option DashboardEntry)) := by
  decide

set_option maxRecDepth 100000 in
theorem dashHeader_append (T : Str) :
    dashHeader ++ T =
      hdrL0 ++ '\n' :: (hdrL1 ++ '\n' :: ('\n' :: (hdrL3 ++ '\n' ::
        (hdrL4 ++ '\n' :: ('\n' :: (hdrL6 ++ T)))))) := by
  rw [show dashHeader = hdrL0 ++ '\n' :: (hdrL1 ++ '\n' :: ('\n' :: (hdrL3 ++
    '\n' :: (hdrL4 ++ '\n' :: ('\n' :: hdrL6))))) from rfl]
  simp

set_option maxRecDepth 100000 in
theorem parseDashboard_renderDashboard (es : List DashboardEntry)
    (hg : ∀ e ∈ es, GoodEntry e) :
    parseDashboard (renderDashboard es none) = some es := by
  by_cases hne : es = []
  · subst hne
    decide
  · have hsplit : splitNl (renderDashboard es none) =
        hdrL0 :: hdrL1 :: [] :: hdrL3 :: hdrL4 :: [] :: hdrL6 :: dashTailLines es := by
      rw [renderDashboard, if_neg hne, dashHeader_append]
      rw [splitNl_append_nl _ _ (by decide)]
      rw [splitNl_append_nl _ _ (by decide)]
      rw [splitNl_nl_cons]
      rw [splitNl_append_nl _ _ (by decide)]
      rw [splitNl_append_nl _ _ (by decide)]
      rw [splitNl_nl_cons]
      rw [splitNl_renderTail es hdrL6 (by decide) hg]
    rw [parseDashboard]
    rw [hsplit]
    have hv : (findVersionMarker ((hdrL0 :: hdrL1 :: [] :: hdrL3 :: hdrL4 :: [] ::
        hdrL6 :: dashTailLines es).headD [])).getD 0 = 1 := by
      rw [List.headD_cons]
      decide
    rw [hv, if_neg (by omega)]
    have hfold : List.foldl parseStep ([], none)
        (hdrL0 :: hdrL1 :: [] :: hdrL3 :: hdrL4 :: [] :: hdrL6 :: dashTailLines es) =
        (es.dropLast, es.getLast?) := by
      rw [show (hdrL0 :: hdrL1 :: [] :: hdrL3 :: hdrL4 :: [] :: hdrL6 ::
        dashTailLines es) = [hdrL0, hdrL1, [], hdrL3, hdrL4, [], hdrL6] ++
        dashTailLines es from rfl]
      rw [List.foldl_append, parseDashboard_header_steps]
      rw [foldl_parseStep_tail es hg [] none, if_neg hne]
      simp
    rw [hfold]
    cases hlast : es.getLast? with
    | none =>
      rw [List.getLast?_eq_none_iff] at hlast
      exact absurd hlast hne
    | some a =>
      simp only [Option.toList_some]
      exact congrArg some (List.dropLast_append_getLast? a hlast)

theorem escapeBranch_head (a : Char) (l : Str) :
    ∃ d ds, escapeBranch (a :: l) = d :: ds ∧ d ≠ btick := by
  cases l with
  | nil =>
    by_cases h : a = btick
    · exact ⟨'\\', [btick], by simp [escapeBranch, h], by decide⟩
    · exact ⟨a, [], by simp [escapeBranch, h], h⟩
  | cons c2 rest =>
    by_cases h1 : a = '\\' ∧ c2 = btick
    · obtain ⟨ha, hc⟩ := h1
      subst ha; subst hc
      exact ⟨'\\', btick :: escapeBranch rest, by simp [escapeBranch], by decide⟩
    · by_cases h2 : a = btick
      · subst h2
        have hno : ¬(btick = '\\' ∧ c2 = btick) := fun h => absurd h.1 (by decide)
        exact ⟨'\\', btick :: escapeBranch (c2 :: rest),
          by simp [escapeBranch, hno], by decide⟩
      · exact ⟨a, escapeBranch (c2 :: rest), by simp [escapeBranch, h1, h2], h2⟩

theorem escapeBranch_idem (l : Str) :
    escapeBranch (escapeBranch l) = escapeBranch l := by
  induction l using escapeBranch.induct with
  | case1 => rfl
  | case2 => simp [escapeBranch]
  | case3 c h => simp [escapeBranch, h]
  | case4 c1 c2 rest h1 ih =>
    obtain ⟨ha, hc⟩ := h1
    subst ha; subst hc
    simp only [escapeBranch]
    simp [ih]
  | case5 c2 rest h1 ih =>
    rw [show escapeBranch (btick :: c2 :: rest) =
      '\\' :: btick :: escapeBranch (c2 :: rest) by simp [escapeBranch, h1]]
    rw [show escapeBranch ('\\' :: btick :: escapeBranch (c2 :: rest)) =
      '\\' :: btick :: escapeBranch (escapeBranch (c2 :: rest)) by
        simp [escapeBranch]]
    rw [ih]
  | case6 c1 c2 rest h1 h2 ih =>
    rw [show escapeBranch (c1 :: c2 :: rest) = c1 :: escapeBranch (c2 :: rest) by
      simp [escapeBranch, h1, h2]]
    obtain ⟨d, ds, hds, hd⟩ := escapeBranch_head c2 rest
    have hnp : ¬(c1 = '\\' ∧ d = btick) := fun h => hd h.2
    rw [hds]
    rw [show escapeBranch (c1 :: d :: ds) = c1 :: escapeBranch (d :: ds) by
      simp [escapeBranch, hnp, h2]]
    rw [← hds, ih, hds]

/-- A concrete entry list inside the round-trip guarantees: nonempty
trim-stable title, nonempty colon-free backtick-free branch. -/
def entsGood : List DashboardEntry :=
  [⟨123, "My bug fix".toList, [⟨124, "release-1".toList⟩]⟩]

/-- C5 (amended): rendering and re-parsing returns the same entries for
every entry list whose titles are nonempty, newline-free and trim-stable
and whose branches are nonempty, colon-free, newline-free and fixed by
the backtick escaping; and the backtick escaping is idempotent on every
branch name. The unrestricted round trip is refuted separately. -/
theorem dashboard_roundtrip_amended :
    (∀ es : List DashboardEntry, (∀ e ∈ es, GoodEntry e) →
        parseDashboard (renderDashboard es none) = some es) ∧
      ∀ b : Str, escapeBranch (escapeBranch b) = escapeBranch b :=
  ⟨parseDashboard_renderDashboard, escapeBranch_idem⟩

/-- C5 witness: the amended round trip at a concrete good entry list, and
idempotence at a branch containing a backtick. -/
theorem dashboard_roundtrip_amended_witness :
    (∀ e ∈ entsGood, GoodEntry e) ∧
      parseDashboard (renderDashboard entsGood none) = some entsGood ∧
      escapeBranch (escapeBranch ['a', btick, 'b']) = escapeBranch ['a', btick, 'b'] :=
  ⟨by decide, dashboard_roundtrip_amended.1 entsGood (by decide),
    dashboard_roundtrip_amended.2 ['a', btick, 'b']⟩

set_option maxRecDepth 100000 in
/-- C5 counterexample: for the entry list whose single backport branch is
a-backtick-b, rendering escapes the backtick but parsing does not
unescape it, so the round trip returns a different branch name. -/
theorem dashboard_roundtrip_counterexample :
    parseDashboard (renderDashboard entriesBt none) ≠ some entriesBt := by
  decide

end BackportAction
